import Mathlib

/-!
Verification development for the svg-code-convert repository
(src/svg-code-convert.full.js and the scorer section of src/proxy.php).

The JavaScript tree objects produced by `domToObject` are shallowly embedded
as the inductive type `Node` below; every tree-transforming function of the
source (the eight rewrite rules, asset extraction, the serializer-side
`compose` chain and the layer scorer `calcLayer`) is translated to a pure
Lean function over `Node`.  JavaScript machine numbers are modelled by `ℚ`
(the scorer works with small decimal fractions); attribute maps are
insertion-ordered association lists, matching JavaScript object key order;
`undefined` is modelled by `Option`.
-/

namespace SvgCC

/-- Whitespace test used wherever the source uses the regex class
backslash-s or `String.prototype.trim`; covers space, tab, CR, LF, which is
the whitespace alphabet appearing in the markup the tool processes. -/
def jsWs (c : Char) : Bool := c.isWhitespace

/-- Split a character list at every occurrence of the separator, keeping
empty pieces: the semantics of JavaScript `String.prototype.split(sep)`
with a single-character separator. -/
def jsSplitC (sep : Char) : List Char → List (List Char)
  | [] => [[]]
  | c :: t =>
    if c = sep then [] :: jsSplitC sep t
    else
      match jsSplitC sep t with
      | h :: r => (c :: h) :: r
      | [] => [[c]]

/-- Split at every character satisfying a predicate (used for the
`split(/\s+/)`-plus-`filter(Boolean)` idiom: splitting on each whitespace
character and then dropping empty pieces gives exactly the behaviour of
splitting on whitespace runs). -/
def jsSplitP (p : Char → Bool) : List Char → List (List Char)
  | [] => [[]]
  | c :: t =>
    if p c then [] :: jsSplitP p t
    else
      match jsSplitP p t with
      | h :: r => (c :: h) :: r
      | [] => [[c]]

/-- Left trim: drop leading whitespace. -/
def trimL (cs : List Char) : List Char := cs.dropWhile jsWs

/-- Right trim, by structural recursion (drop trailing whitespace). -/
def trimR : List Char → List Char
  | [] => []
  | c :: t =>
    match trimR t with
    | [] => if jsWs c then [] else [c]
    | r => c :: r

/-- Both-sided trim: the model of JavaScript `String.prototype.trim`. -/
def trimB (cs : List Char) : List Char := trimR (trimL cs)

/-- Join pieces with a separator list (JavaScript `Array.prototype.join`). -/
def joinSep (sep : List Char) : List (List Char) → List Char
  | [] => []
  | [x] => x
  | x :: y :: r => x ++ sep ++ joinSep sep (y :: r)

/-- ASCII-lowercase a character list (model of `toLowerCase` for the ASCII
tag and attribute names the tool manipulates). -/
def lowerC (cs : List Char) : List Char := cs.map Char.toLower

/-- ASCII-lowercase a string. -/
def lowerS (s : String) : String := String.mk (lowerC s.data)

/-- String-level trim matching the char-level `trimB`. -/
def trimS (s : String) : String := String.mk (trimB s.data)

/-- `s.startsWith pre` (JavaScript `String.prototype.startsWith`). -/
def strBegins (pre s : String) : Bool := List.isPrefixOf pre.data s.data

/- The tree objects built by `domToObject`: element nodes carry
`{tag, attrs, children}`; text nodes are `{tag:'wenben', attrs:<content>}`;
comment nodes are `{tag:'zhushi', attrs:<content>}`.  The leaf payloads are
kept in dedicated constructors; the accessors below reproduce the dynamic
field reads of the JavaScript code.  `NodeList` is the `children` array,
kept mutual with `Node` so that all tree recursions are structural. -/
mutual
inductive Node where
  | element (tag : String) (attrs : List (String × String)) (children : NodeList)
  | textLeaf (content : String)
  | commentLeaf (content : String)
deriving DecidableEq
inductive NodeList where
  | nil
  | cons (head : Node) (tail : NodeList)
deriving DecidableEq
end

/-- Reads `node.tag` (domToObject stores 'wenben'/'zhushi' for leaves). -/
def Node.tag : Node → String
  | .element t _ _ => t
  | .textLeaf _ => "wenben"
  | .commentLeaf _ => "zhushi"

/-- Reads `node.attrs` as an attribute map; for a leaf, `node.attrs` is a
raw string in JavaScript, on which keyed access yields `undefined`, so the
empty map is the faithful view for attribute lookups. -/
def Node.attrsL : Node → List (String × String)
  | .element _ a _ => a
  | _ => []

/-- Reads `node.children` (leaves are built with an empty array). -/
def Node.childrenL : Node → NodeList
  | .element _ _ cs => cs
  | _ => .nil

/-- `attrs[k]`: `none` models `undefined`. -/
def getAttr (a : List (String × String)) (k : String) : Option String :=
  (a.find? (fun p => p.1 == k)).map (·.2)

/-- `attrs[k] = v` / `setAttribute`: overwrite in place if present
(JavaScript keeps the original key position), else append. -/
def setAttr (a : List (String × String)) (k v : String) : List (String × String) :=
  if a.any (fun p => p.1 == k) then a.map (fun p => if p.1 == k then (k, v) else p)
  else a ++ [(k, v)]

/-- `delete attrs[k]` / `removeAttribute`. -/
def removeAttr (a : List (String × String)) (k : String) : List (String × String) :=
  a.filter (fun p => p.1 != k)

/-- JavaScript truthiness of an attribute read: `undefined` and the empty
string are falsy. -/
def truthy : Option String → Bool
  | some s => s != ""
  | none => false

/-- `x || d` for a string-or-undefined `x`. -/
def jsOr (o : Option String) (d : String) : String :=
  match o with
  | some s => if s == "" then d else s
  | none => d

/-- `node.attrs?.[k]`. -/
def Node.attr (n : Node) (k : String) : Option String := getAttr n.attrsL k

/-- `node.attrs.style || ''` (used verbatim by several rules). -/
def Node.styleOr (n : Node) : String := (n.attr "style").getD ""

def NodeList.length : NodeList → Nat
  | .nil => 0
  | .cons _ t => t.length + 1

/-- `children.length === 0`. -/
def NodeList.isEmpty : NodeList → Bool
  | .nil => true
  | .cons _ _ => false

/-- `children.some(p)`. -/
def NodeList.any (p : Node → Bool) : NodeList → Bool
  | .nil => false
  | .cons c t => p c || NodeList.any p t

/-- `children.find(p)`. -/
def NodeList.findFirst (p : Node → Bool) : NodeList → Option Node
  | .nil => none
  | .cons c t => if p c then some c else NodeList.findFirst p t

def NodeList.toList : NodeList → List Node
  | .nil => []
  | .cons c t => c :: t.toList

def NodeList.ofList : List Node → NodeList
  | [] => .nil
  | c :: t => .cons c (NodeList.ofList t)

-- =====================================================================
-- Shared helpers of the rule catalog (svg-code-convert.full.js, 通用工具函数)
-- =====================================================================

/-- `preservedAttrsList` (full.js line 21). -/
def preservedAttrsList : List String :=
  ["class", "id", "name", "label", "pointer-events", "transform", "opacity"]

/-- `filterPreservedAttrs` (full.js lines 28-36): keep whitelist attributes
and `data-*` attributes, preserving their original order. -/
def filterPreservedAttrs (a : List (String × String)) : List (String × String) :=
  a.filter (fun p => preservedAttrsList.contains p.1 || strBegins "data-" p.1)

/-- The test `/^width\s*:/i.test(decl)` of `removeWidth`. -/
def isWidthDecl (d : List Char) : Bool :=
  lowerC (d.take 5) == "width".data &&
    (match (d.drop 5).dropWhile jsWs with
     | ':' :: _ => true
     | _ => false)

/-- `removeWidth` (full.js lines 43-57): join the non-blank style strings
with ';', split into declarations, trim each, drop `width:` declarations,
rejoin with '; ' and trim. -/
def removeWidth (styleArr : List String) : String :=
  let kept := styleArr.filter (fun s => !(trimB s.data).isEmpty)
  let combined := joinSep [';'] (kept.map (·.data))
  let decls := (jsSplitC ';' combined).map trimB
  let cleaned := decls.filter (fun d => !(isWidthDecl d))
  String.mk (trimB (joinSep [';', ' '] cleaned))

/-- `{...a, ...b}`: keys of `a` keep their position, values overridden by
`b` on conflict; new keys of `b` follow in `b`'s order. -/
def mergeAttrs (a b : List (String × String)) : List (String × String) :=
  a.map (fun p => (p.1, (getAttr b p.1).getD p.2)) ++
    b.filter (fun p => !(a.any (fun q => q.1 == p.1)))

/-- Case-sensitive literal match; returns the remainder after the
literal. -/
def matchLit : List Char → List Char → Option (List Char)
  | [], cs => some cs
  | _ :: _, [] => none
  | l :: lt, c :: ct => if c = l then matchLit lt ct else none

/-- One anchored attempt of the regex `\s*(transform|opacity)\s*:[^;]*;?\s*`
(svg2image, full.js line 239; the regex carries no `i` flag, so the
alternatives match case-sensitively); returns the remainder after the
match. -/
def tryMatchTO (cs : List Char) : Option (List Char) :=
  let r1 := cs.dropWhile jsWs
  match (matchLit "transform".data r1).orElse (fun _ => matchLit "opacity".data r1) with
  | none => none
  | some r2 =>
    match r2.dropWhile jsWs with
    | ':' :: r4 =>
      let r5 := r4.dropWhile (fun c => c != ';')
      let r6 := match r5 with
        | ';' :: t => t
        | _ => r5
      some (r6.dropWhile jsWs)
    | _ => none

/-- Global leftmost scan of the replace above; the fuel bounds the scan and
each step consumes at least one character, so fuel = input length is always
sufficient. -/
def stripTOGo : Nat → List Char → List Char
  | 0, cs => cs
  | fuel + 1, cs =>
    match tryMatchTO cs with
    | some rest => stripTOGo fuel rest
    | none =>
      match cs with
      | [] => []
      | c :: t => c :: stripTOGo fuel t

/-- `style.replace(/\s*(transform|opacity)\s*:[^;]*;?\s*/g, '')`. -/
def stripTransformOpacity (s : String) : String :=
  String.mk (stripTOGo s.data.length s.data)

-- =====================================================================
-- The traversal driver and the generic rule shape
-- =====================================================================

/- The shared traversal-and-rewrite shape of the rule catalog
(`traverseHtmlTree`, full.js lines 132-152, as used by every rule): a rule
examines each node together with its parent's tag; a matched node is
replaced in its parent's children (same index, array length unchanged) and
the traversal does not descend into the replacement; an unmatched node is
descended into.  The root is never replaced: every rule's condition
requires `parentInfo?.parentNode?.children`, which is `undefined` at the
root, so the root only has its children processed — which is exactly what
`rwGo` does.  The two async rules collect matches in a full walk and then
splice sequentially; since every replacement node is freshly built and a
nested match lies inside a replaced (hence detached) subtree, the visible
tree effect coincides with this outermost-first rewrite. -/
mutual
def rwGo (m : String → Node → Bool) (w : Node → Node) : Node → Node
  | .element t a cs => .element t a (rwChildren m w t cs)
  | n => n
def rwChildren (m : String → Node → Bool) (w : Node → Node) (pt : String) :
    NodeList → NodeList
  | .nil => .nil
  | .cons c rest =>
    .cons (if m pt c then w c else rwGo m w c) (rwChildren m w pt rest)
end

-- =====================================================================
-- The eight rewrite rules (full.js 节点转换处理函数)
-- =====================================================================

/-- `node.children.find(child => child.tag === 'svg')`. -/
def firstSvgChild (n : Node) : Option Node :=
  n.childrenL.findFirst (fun c => c.tag == "svg")

/-- Match condition of `fosvg2image` (full.js lines 167-170): a
`foreignObject` whose first svg child carries a truthy migrated background
and has no children.  The parent-validity conjunct
(`parentInfo?.parentNode?.children`) always holds at child level. -/
def mFosvg2image (_ : String) (n : Node) : Bool :=
  n.tag == "foreignObject" &&
    (match firstSvgChild n with
     | some s => truthy (s.attr "iftool-background") && s.childrenL.isEmpty
     | none => false)

/-- Rewrite of `fosvg2image` (full.js lines 172-207).  The source's
fallback of extracting the url from the svg's style is unreachable here
because the match requires a truthy `iftool-background`. -/
def wFosvg2image (n : Node) : Node :=
  match firstSvgChild n with
  | none => n
  | some s =>
    let preserved := filterPreservedAttrs (mergeAttrs n.attrsL s.attrsL)
    let imageStyle := removeWidth [n.styleOr, s.styleOr]
    Node.element "image"
      (preserved ++
        [("iftool-href", (s.attr "iftool-background").getD ""),
         ("x", jsOr (n.attr "x") "0"), ("y", jsOr (n.attr "y") "0"),
         ("width", jsOr (n.attr "width") "100%"),
         ("height", jsOr (n.attr "height") "100%"),
         ("style", imageStyle)])
      NodeList.nil

/-- `fosvg2image` tree effect (full.js lines 163-212). -/
def fosvg2image (tree : Node) : Node := rwGo mFosvg2image wFosvg2image tree

/-- JavaScript return value of `fosvg2image`: the function body contains no
`return` statement (full.js lines 163-212 end after the traversal), so the
call evaluates to `undefined`, modelled as `none`. -/
def fosvg2imageReturn (_ : Node) : Option Node := none

/-- The animate guard of `svg2image` (full.js line 225): a direct `animate`
child with `attributeName === 'height'` and `by === '-1'`. -/
def hasHeightByAnimate (n : Node) : Bool :=
  n.childrenL.any (fun c =>
    c.tag == "animate" && c.attr "attributeName" == some "height" &&
      c.attr "by" == some "-1")

/-- `viewBox.split(/\s+/).filter(Boolean)`. -/
def splitWsTokens (s : String) : List String :=
  ((jsSplitP jsWs s.data).filter (fun p => !p.isEmpty)).map String.mk

/-- Match condition of `svg2image` (full.js lines 223-230): an svg without
the height/by animate, whose parent is not a `foreignObject`, carrying a
truthy migrated background. -/
def mSvg2image (pt : String) (n : Node) : Bool :=
  n.tag == "svg" && !hasHeightByAnimate n && pt != "foreignObject" &&
    truthy (n.attr "iftool-background")

/-- Rewrite of `svg2image` (full.js lines 232-256): build an image from the
viewBox tokens and the transform/opacity-stripped style, unshift it into
the svg's children, and delete the svg's background attribute. -/
def wSvg2image (n : Node) : Node :=
  let parts := if truthy (n.attr "viewBox")
    then splitWsTokens ((n.attr "viewBox").getD "") else []
  let iw := if 4 ≤ parts.length then parts.getD 2 "" else "100%"
  let ih := if 4 ≤ parts.length then parts.getD 3 "" else "100%"
  let imageStyle := trimS (stripTransformOpacity n.styleOr)
  let imageNode := Node.element "image"
    [("iftool-href", (n.attr "iftool-background").getD ""),
     ("x", "0"), ("y", "0"), ("width", iw), ("height", ih),
     ("style", imageStyle)] NodeList.nil
  Node.element n.tag (removeAttr n.attrsL "iftool-background")
    (NodeList.cons imageNode n.childrenL)

/-- `svg2image` tree effect (full.js lines 219-261). -/
def svg2image (tree : Node) : Node := rwGo mSvg2image wSvg2image tree

/-- JavaScript return value of `svg2image`: no `return` statement in the
function body, so the call evaluates to `undefined`. -/
def svg2imageReturn (_ : Node) : Option Node := none

/-- Match condition of `svg2img` (full.js line 272). -/
def mSvg2img (_ : String) (n : Node) : Bool :=
  n.tag == "svg" && n.childrenL.isEmpty && truthy (n.attr "iftool-background")

/-- Rewrite of `svg2img` (full.js lines 273-286). -/
def wSvg2img (n : Node) : Node :=
  Node.element "img"
    (filterPreservedAttrs n.attrsL ++
      [("iftool-src", (n.attr "iftool-background").getD ""),
       ("style", n.styleOr)])
    NodeList.nil

/-- `svg2img` tree effect (full.js lines 268-291). -/
def svg2img (tree : Node) : Node := rwGo mSvg2img wSvg2img tree

/-- `svg2img` ends with `return tree` (full.js line 290). -/
def svg2imgReturn (tree : Node) : Option Node := some (svg2img tree)

/-- Match condition of `image2img` and `image2svg` (full.js lines 302, 355):
an empty `image` with a truthy migrated href. -/
def mImage2any (_ : String) (n : Node) : Bool :=
  n.tag == "image" && n.childrenL.isEmpty && truthy (n.attr "iftool-href")

/-- Rewrite of `image2img` (full.js lines 303-337): wrap in
`g > foreignObject > img`. -/
def wImage2img (n : Node) : Node :=
  let preserved := filterPreservedAttrs n.attrsL
  Node.element "g" []
    (NodeList.cons
      (Node.element "foreignObject"
        [("x", jsOr (n.attr "x") "0"), ("y", jsOr (n.attr "y") "0"),
         ("width", jsOr (n.attr "width") "100%"),
         ("height", jsOr (n.attr "height") "100%")]
        (NodeList.cons
          (Node.element "img"
            (preserved ++
              [("iftool-src", (n.attr "iftool-href").getD ""),
               ("style", n.styleOr)])
            NodeList.nil)
          NodeList.nil))
      NodeList.nil)

/-- `image2img` tree effect (full.js lines 298-344). -/
def image2img (tree : Node) : Node := rwGo mImage2any wImage2img tree

/-- `image2img` ends with `return tree` (full.js line 343). -/
def image2imgReturn (tree : Node) : Option Node := some (image2img tree)

/-- Rewrite of `image2svg` (full.js lines 356-393): wrap in
`g > foreignObject > svg` with a synthesized viewBox and the href moved to
the svg's background slot. -/
def wImage2svg (n : Node) : Node :=
  let preserved := filterPreservedAttrs n.attrsL
  let iw := jsOr (n.attr "width") "100%"
  let ih := jsOr (n.attr "height") "100%"
  Node.element "g" []
    (NodeList.cons
      (Node.element "foreignObject"
        [("x", jsOr (n.attr "x") "0"), ("y", jsOr (n.attr "y") "0"),
         ("width", iw), ("height", ih)]
        (NodeList.cons
          (Node.element "svg"
            (preserved ++
              [("viewBox", "0 0 " ++ iw ++ " " ++ ih),
               ("style", n.styleOr),
               ("iftool-background", (n.attr "iftool-href").getD "")])
            NodeList.nil)
          NodeList.nil))
      NodeList.nil)

/-- `image2svg` tree effect (full.js lines 351-398). -/
def image2svg (tree : Node) : Node := rwGo mImage2any wImage2svg tree

/-- `image2svg` ends with `return tree` (full.js line 397). -/
def image2svgReturn (tree : Node) : Option Node := some (image2svg tree)

/-- `node.children.find(child => child.tag === 'img')`. -/
def firstImgChild (n : Node) : Option Node :=
  n.childrenL.findFirst (fun c => c.tag == "img")

/-- Match condition of `foimg2image` (full.js lines 409-412). -/
def mFoimg2image (_ : String) (n : Node) : Bool :=
  n.tag == "foreignObject" &&
    (match firstImgChild n with
     | some i => truthy (i.attr "iftool-src") && i.childrenL.isEmpty
     | none => false)

/-- Rewrite of `foimg2image` (full.js lines 414-449). -/
def wFoimg2image (n : Node) : Node :=
  match firstImgChild n with
  | none => n
  | some i =>
    let preserved := filterPreservedAttrs (mergeAttrs n.attrsL i.attrsL)
    let imageStyle := removeWidth [n.styleOr, i.styleOr]
    Node.element "image"
      (preserved ++
        [("iftool-href", (i.attr "iftool-src").getD ""),
         ("x", jsOr (n.attr "x") "0"), ("y", jsOr (n.attr "y") "0"),
         ("width", jsOr (n.attr "width") "100%"),
         ("height", jsOr (n.attr "height") "100%"),
         ("style", imageStyle)])
      NodeList.nil

/-- `foimg2image` tree effect (full.js lines 405-455). -/
def foimg2image (tree : Node) : Node := rwGo mFoimg2image wFoimg2image tree

/-- `foimg2image` ends with `return tree` (full.js line 454). -/
def foimg2imageReturn (tree : Node) : Option Node := some (foimg2image tree)

/-- `Math.round` (half rounds toward positive infinity). -/
def jsMathRound (q : ℚ) : ℤ := Int.floor (q + 1 / 2)

/-- Match condition of `img2image` (full.js lines 468-471): an `img` with a
truthy migrated src, not a direct child of a `foreignObject`, with neither
a truthy width nor a truthy height attribute. -/
def mImg2image (pt : String) (n : Node) : Bool :=
  n.tag == "img" && truthy (n.attr "iftool-src") && pt != "foreignObject" &&
    !truthy (n.attr "width") && !truthy (n.attr "height")

/-- The catch-branch replacement of `img2image` (full.js lines 513-530): a
default `svg > image` with a 100%-sized viewBox carrying the img's src as
`iftool-href` (note: the fallback image carries no style attribute). -/
def img2imageFallback (n : Node) : Node :=
  Node.element "svg"
    [("viewBox", "0 0 100% 100%"), ("style", "display: block; width: 100%;")]
    (NodeList.cons
      (Node.element "image"
        (filterPreservedAttrs n.attrsL ++
          [("iftool-href", (n.attr "iftool-src").getD ""),
           ("x", "0"), ("y", "0"), ("width", "100%"), ("height", "100%")])
        NodeList.nil)
      NodeList.nil)

/-- Per-match replacement of `img2image` (full.js lines 478-531): the
ratio probe (`getImageRatio`, an external browser capability) is passed in
as `probe`; `none` models a rejected probe, handled by the catch branch.
Numeric attribute values are stringified as the DOM serializer does. -/
def wImg2image (probe : String → Option ℚ) (n : Node) : Node :=
  match probe ((n.attr "iftool-src").getD "") with
  | some r =>
    let h := jsMathRound (1080 / r)
    Node.element "svg"
      [("viewBox", "0 0 1080 " ++ toString h),
       ("style", "display: block; pointer-events: painted; width: 100%;")]
      (NodeList.cons
        (Node.element "image"
          (filterPreservedAttrs n.attrsL ++
            [("iftool-href", (n.attr "iftool-src").getD ""),
             ("x", "0"), ("y", "0"), ("width", "1080"),
             ("height", toString h), ("style", n.styleOr)])
          NodeList.nil)
        NodeList.nil)
  | none => img2imageFallback n

/-- `img2image` tree effect (full.js lines 462-534). -/
def img2image (probe : String → Option ℚ) (tree : Node) : Node :=
  rwGo mImg2image (wImg2image probe) tree

/-- `img2image` ends with `return tree` (full.js line 533); the promise
resolves with the mutated tree. -/
def img2imageReturn (probe : String → Option ℚ) (tree : Node) : Option Node :=
  some (img2image probe tree)

/-- Match condition of `img2svg` (full.js line 548). -/
def mImg2svg (_ : String) (n : Node) : Bool :=
  n.tag == "img" && n.childrenL.isEmpty && truthy (n.attr "iftool-src")

/-- The catch-branch replacement of `img2svg` (full.js lines 577-589): a
default svg with a 100%-sized viewBox whose background is the img's src. -/
def img2svgFallback (n : Node) : Node :=
  Node.element "svg"
    (filterPreservedAttrs n.attrsL ++
      [("viewBox", "0 0 100% 100%"), ("style", n.styleOr),
       ("iftool-background", (n.attr "iftool-src").getD "")])
    NodeList.nil

/-- Per-match replacement of `img2svg` (full.js lines 554-590). -/
def wImg2svg (probe : String → Option ℚ) (n : Node) : Node :=
  match probe ((n.attr "iftool-src").getD "") with
  | some r =>
    Node.element "svg"
      (filterPreservedAttrs n.attrsL ++
        [("viewBox", "0 0 1080 " ++ toString (jsMathRound (1080 / r))),
         ("style", n.styleOr),
         ("iftool-background", (n.attr "iftool-src").getD "")])
      NodeList.nil
  | none => img2svgFallback n

/-- `img2svg` tree effect (full.js lines 541-592). -/
def img2svg (probe : String → Option ℚ) (tree : Node) : Node :=
  rwGo mImg2svg (wImg2svg probe) tree

/-- `img2svg` ends with `return tree` (full.js line 591). -/
def img2svgReturn (probe : String → Option ℚ) (tree : Node) : Option Node :=
  some (img2svg probe tree)

-- =====================================================================
-- Asset extraction (`extractAssets` / `processStyle`, full.js lines 817-890)
-- =====================================================================

/-- The test
`/^background(-image|-position|-size|-repeat|-attachment|-origin|-clip|-color)?\s*:/i`
of `processStyle`: the alternatives are tried in order and the optional
group falls back to empty. -/
def isBackgroundDecl (d : List Char) : Bool :=
  let colonNext := fun (cs : List Char) =>
    match cs.dropWhile jsWs with
    | ':' :: _ => true
    | _ => false
  lowerC (d.take 10) == "background".data &&
    (let rest := d.drop 10
     (["-image", "-position", "-size", "-repeat", "-attachment", "-origin",
        "-clip", "-color"].any fun suf =>
          lowerC (rest.take suf.length) == suf.data &&
            colonNext (rest.drop suf.length)) ||
       colonNext rest)

/-- The `cleanedStyle` computation of `processStyle` (full.js lines
884-888): split on ';', trim, drop empty and background declarations,
rejoin with '; '. -/
def cleanedStyleOf (s : String) : String :=
  String.mk (joinSep [';', ' ']
    (((jsSplitC ';' s.data).map trimB).filter
      (fun d => !d.isEmpty && !(isBackgroundDecl d))))

/-- The eight style values `processStyle` reads off the browser's CSS
parser (`tempDiv.style.*`); `url` is empty when no background image was
recognised. -/
structure BgProps where
  url : String
  color : String
  position : String
  size : String
  repeatV : String
  attachment : String
  origin : String
  clip : String

/-- The per-element body of `extractAssets` (full.js lines 820-851).
`cssBg` is the browser CSS engine `processStyle` delegates to
(`tempDiv.style.cssText = styleString`), an external capability passed in
as an oracle; only `bgProps.url`'s truthiness influences which attributes
are written, and the style cleaning (`cleanedStyleOf`) is pure source
code.  The body is split into its three `if` blocks: the `href` migration
for image tags, the `src` migration for img tags, and the style
processing. -/
def extractHrefStage (tag : String) (a : List (String × String)) :
    List (String × String) :=
  if lowerS tag == "image" && (getAttr a "href").isSome then
    removeAttr (setAttr a "iftool-href" ((getAttr a "href").getD "")) "href"
  else a

def extractSrcStage (tag : String) (a : List (String × String)) :
    List (String × String) :=
  if lowerS tag == "img" && (getAttr a "src").isSome then
    removeAttr (setAttr a "iftool-src" ((getAttr a "src").getD "")) "src"
  else a

def extractStyleStage (cssBg : String → BgProps) (a : List (String × String)) :
    List (String × String) :=
  if (getAttr a "style").isSome then
    let orig := (getAttr a "style").getD ""
    let props := cssBg orig
    let cleaned := cleanedStyleOf orig
    let a3 := if props.url != "" then
        setAttr (setAttr (setAttr (setAttr (setAttr (setAttr (setAttr (setAttr
          a "iftool-background" props.url)
          "iftool-bg-color" props.color)
          "iftool-bg-position" props.position)
          "iftool-bg-size" props.size)
          "iftool-bg-repeat" props.repeatV)
          "iftool-bg-attachment" props.attachment)
          "iftool-bg-origin" props.origin)
          "iftool-bg-clip" props.clip
      else a
    if cleaned != "" then setAttr a3 "style" cleaned else removeAttr a3 "style"
  else a

def extractLocalAttrs (cssBg : String → BgProps) (tag : String)
    (a : List (String × String)) : List (String × String) :=
  extractStyleStage cssBg (extractSrcStage tag (extractHrefStage tag a))

mutual
def extractAll (cssBg : String → BgProps) : Node → Node
  | .element t a cs => .element t (extractLocalAttrs cssBg t a) (extractList cssBg cs)
  | n => n
def extractList (cssBg : String → BgProps) : NodeList → NodeList
  | .nil => .nil
  | .cons c rest => .cons (extractAll cssBg c) (extractList cssBg rest)
end

/-- `extractAssets(rootNode)` (full.js lines 817-852): the `TreeWalker`
starts below its root (`nextNode` first moves to the first child), so the
root element itself is never processed; every descendant element is. -/
def extractAssets (cssBg : String → BgProps) : Node → Node
  | .element t a cs => .element t a (extractList cssBg cs)
  | n => n

-- =====================================================================
-- Serialisation (`compose` / `objectToDom`, full.js lines 926-1030)
-- =====================================================================

/-- XML attribute-value escaping of the serializer model. -/
def escAttrC : List Char → List Char
  | [] => []
  | c :: t =>
    (if c = '&' then "&amp;".data
     else if c = '<' then "&lt;".data
     else if c = '"' then "&quot;".data
     else [c]) ++ escAttrC t

/-- XML text escaping of the serializer model. -/
def escTextC : List Char → List Char
  | [] => []
  | c :: t =>
    (if c = '&' then "&amp;".data
     else if c = '<' then "&lt;".data
     else if c = '>' then "&gt;".data
     else [c]) ++ escTextC t

def serializeAttrs : List (String × String) → List Char
  | [] => []
  | p :: rest =>
    ' ' :: (p.1.data ++ '=' :: '"' :: escAttrC p.2.data ++ ['"']) ++ serializeAttrs rest

/- Model of `new XMLSerializer().serializeToString` on the DOM built by
`objectToDom` inside `document.implementation.createDocument(null, null,
null)`: elements carry no namespace, attributes appear in insertion order,
childless elements are serialized self-closed, text and comment nodes as
usual.  This is the external-browser boundary of `compose`. -/
mutual
def serializeNode : Node → List Char
  | .element t a cs =>
    '<' :: (t.data ++ serializeAttrs a ++
      (match cs with
       | .nil => "/>".data
       | _ => '>' :: (serializeList cs ++ "</".data ++ t.data ++ ['>'])))
  | .textLeaf s => escTextC s.data
  | .commentLeaf s => "<!--".data ++ s.data ++ "-->".data
def serializeList : NodeList → List Char
  | .nil => []
  | .cons c rest => serializeNode c ++ serializeList rest
end

/-- The ten neutral asset keys deleted by `objectToDom` (full.js lines
975-984). -/
def iftoolKeys : List String :=
  ["iftool-background", "iftool-href", "iftool-src", "iftool-bg-color",
   "iftool-bg-position", "iftool-bg-size", "iftool-bg-repeat",
   "iftool-bg-attachment", "iftool-bg-origin", "iftool-bg-clip"]

/-- The attribute computation of `objectToDom` (full.js lines 960-1018):
drop the neutral keys, synthesize the `background` shorthand into `style`
when a background url is present, and restore native `href`/`src`. -/
def composeFinalAttrs (a : List (String × String)) : List (String × String) :=
  let bgUrl := getAttr a "iftool-background"
  let href := getAttr a "iftool-href"
  let srcUrl := getAttr a "iftool-src"
  let f0 := a.filter (fun p => !(iftoolKeys.contains p.1))
  let f1 := if truthy bgUrl then
      let c := jsOr (getAttr a "iftool-bg-color") "transparent"
      let p := jsOr (getAttr a "iftool-bg-position") "0% 0%"
      let s := jsOr (getAttr a "iftool-bg-size") "auto auto"
      let r := jsOr (getAttr a "iftool-bg-repeat") "repeat"
      let att := jsOr (getAttr a "iftool-bg-attachment") "scroll"
      let o := jsOr (getAttr a "iftool-bg-origin") "padding-box"
      let l := jsOr (getAttr a "iftool-bg-clip") "border-box"
      let posSize := if s != "" && s != "auto" && s != "auto auto"
        then p ++ " / " ++ s else p
      let newBg := "background: " ++ c ++ " url(" ++ bgUrl.getD "" ++ ") " ++
        posSize ++ " " ++ r ++ " " ++ att ++ " " ++ o ++ " " ++ l
      let existing := (getAttr f0 "style").getD ""
      setAttr f0 "style" (if existing != "" then existing ++ "; " ++ newBg else newBg)
    else f0
  let f2 := if truthy href then setAttr f1 "href" (href.getD "") else f1
  if truthy srcUrl then setAttr f2 "src" (srcUrl.getD "") else f2

/- `objectToDom` applied through the whole tree (the element case rebuilds
the node with the restored attributes; leaves become text/comment DOM
nodes, rendered by `serializeNode`). -/
mutual
def composeDom : Node → Node
  | .element t a cs => .element t (composeFinalAttrs a) (composeList cs)
  | n => n
def composeList : NodeList → NodeList
  | .nil => .nil
  | .cons c rest => .cons (composeDom c) (composeList rest)
end

/-- First occurrence of `pat` in a character list, returning the text
before it and the remainder after it. -/
def findSub (pat : List Char) : List Char → Option (List Char × List Char)
  | [] => if pat.isEmpty then some ([], []) else none
  | c :: t =>
    if List.isPrefixOf pat (c :: t) then some ([], (c :: t).drop pat.length)
    else (findSub pat t).map (fun pr => (c :: pr.1, pr.2))

/-- The unwrap step `xmlString.match(/<div id="iftool">(.*?)<\/div>/s)[1]`
(full.js line 933): the first position where the opening literal matches
and a closing `</div>` follows somewhere later yields the lazily captured
content; if the regex has no match, `match` returns `null` and the `[1]`
access throws a TypeError — modelled as `none`. -/
def unwrapGo : List Char → Option (List Char)
  | [] => none
  | c :: t =>
    if List.isPrefixOf ("<div id=\"iftool\">".data) (c :: t) then
      match findSub ("</div>".data) ((c :: t).drop 17) with
      | some pr => some pr.1
      | none => unwrapGo t
    else unwrapGo t

/-- `xmlString.replace(/&amp;/g, '&')` (full.js line 934); fuel-bounded
scan, one character consumed per step at minimum. -/
def ampRestoreGo : Nat → List Char → List Char
  | 0, cs => cs
  | fuel + 1, cs =>
    match cs with
    | [] => []
    | c :: t =>
      if List.isPrefixOf ("&amp;".data) (c :: t) then
        '&' :: ampRestoreGo fuel ((c :: t).drop 5)
      else c :: ampRestoreGo fuel t

def ampRestore (cs : List Char) : List Char := ampRestoreGo cs.length cs

/-- The close-tag list of `compose` (full.js lines 937-942). -/
def tagsToFixL : List String :=
  ["section", "p", "div", "svg", "iframe", "video",
   "mp-common-clmusic", "mp-common-redpacket", "mp-common-profile",
   "mp-common-videosnap", "mp-common-mpaudio", "mp-common-poi",
   "mp-common-miniprogram", "mp-common-vote"]

/-- Case-insensitive literal match that also returns the original matched
characters (the regex back-reference `$2` keeps the input's case). -/
def matchCIKeep : List Char → List Char → Option (List Char × List Char)
  | [], cs => some ([], cs)
  | _ :: _, [] => none
  | l :: lt, c :: ct =>
    if c.toLower = l then (matchCIKeep lt ct).map (fun pr => (c :: pr.1, pr.2)) else none

/-- The lazy `[^>]*?\/>` tail: scan to the first `/>` and fail on a bare
`>`; returns the consumed middle and the remainder after `/>`. -/
def findSelfClose : List Char → Option (List Char × List Char)
  | '/' :: '>' :: rest => some ([], rest)
  | '>' :: _ => none
  | [] => none
  | c :: t => (findSelfClose t).map (fun pr => (c :: pr.1, pr.2))

/-- One anchored attempt of `(<(tag1|...|tagN)\s+[^>]*?)\/>` with
replacement `$1></$2>`: tag alternatives are tried in the source's order,
the tag must be followed by at least one whitespace character, and the
match ends at the first `/>` that is not preceded by a bare `>`.  Returns
the replacement output and the remainder after the match. -/
def tryFixAt (cs : List Char) : Option (List Char × List Char) :=
  match cs with
  | '<' :: r =>
    (tagsToFixL.map fun tag =>
        match matchCIKeep tag.data r with
        | some (orig, r2) =>
          match r2 with
          | c2 :: _ =>
            if jsWs c2 then
              match findSelfClose r2 with
              | some (mid, rest2) =>
                some ('<' :: (orig ++ mid ++ '>' :: '<' :: '/' :: orig ++ ['>']), rest2)
              | none => none
            else none
          | [] => none
        | none => none).foldl (fun acc o => acc.orElse (fun _ => o)) none
  | _ => none

/-- Fuel-bounded global scan of the close-tag replace; each step consumes
at least one input character, so fuel = input length always suffices. -/
def fixGo : Nat → List Char → List Char
  | 0, cs => cs
  | fuel + 1, cs =>
    match tryFixAt cs with
    | some (out, rest) => out ++ fixGo fuel rest
    | none =>
      match cs with
      | [] => []
      | c :: t => c :: fixGo fuel t

/-- The forced-close-tag replace of `compose` (full.js line 943). -/
def fixCloseTags (s : String) : String := String.mk (fixGo s.data.length s.data)

/-- `compose` (full.js lines 926-946): serialize the restored tree, unwrap
the synthetic `div#iftool` root, restore ampersands and force the close
tags.  The xmlns-removal replace of line 932 matches nothing here because
the namespace-free document model never emits an `xmlns` attribute.  A
failed unwrap (`match` returning `null`, so `[1]` throws a TypeError) is
modelled as `none`. -/
def compose (tree : Node) : Option String :=
  let xmlStr := serializeNode (composeDom tree)
  match unwrapGo xmlStr with
  | none => none
  | some mid => some (fixCloseTags (String.mk (ampRestore mid)))

-- =====================================================================
-- The layer scorer (`parseStyle` / `calcLayer`, proxy.php lines 1110-1338)
-- =====================================================================

/-- `parseStyle` (proxy.php lines 1110-1118) as the list of key/value
pairs it assigns: split on ';', trim, take the first two ':'-separated
fields trimmed, keep the pair when both are non-empty.  Later duplicate
keys overwrite earlier ones in the JavaScript object, so lookups below
take the last occurrence. -/
def parseStyleEntries (styleStr : String) : List (String × String) :=
  (jsSplitC ';' styleStr.data).filterMap fun item =>
    match (jsSplitC ':' (trimB item)).map trimB with
    | k :: v :: _ =>
      if !k.isEmpty && !v.isEmpty then some (String.mk k, String.mk v) else none
    | _ => none

/-- A read `s.key` on the object built by `parseStyle`. -/
def parseStyleGet (styleStr : String) (k : String) : Option String :=
  (((parseStyleEntries styleStr).filter (fun p => p.1 == k)).getLast?).map (·.2)

def digitsToNat (cs : List Char) : Nat :=
  cs.foldl (fun a c => a * 10 + (c.toNat - 48)) 0

/-- `parseFloat` on a string: skip leading whitespace, optional sign,
digits with an optional fraction; `none` models `NaN`.  Exponent notation
is not modelled (no input in this development carries one). -/
def parseFloatStr (s : String) : Option ℚ :=
  let cs := s.data.dropWhile jsWs
  let signNeg := cs.headD ' ' = '-'
  let cs2 := match cs with
    | '-' :: t => t
    | '+' :: t => t
    | t => t
  let intPart := cs2.takeWhile Char.isDigit
  let r2 := cs2.dropWhile Char.isDigit
  let fracPart := match r2 with
    | '.' :: t3 => t3.takeWhile Char.isDigit
    | _ => []
  if intPart.isEmpty && fracPart.isEmpty then none
  else
    let v : ℚ := Rat.ofInt (Int.ofNat (digitsToNat intPart)) +
      mkRat (Int.ofNat (digitsToNat fracPart)) ((10 : ℕ) ^ fracPart.length)
    some (if signNeg then -v else v)

/-- `parseFloat(x)` for an attribute read (`undefined` gives `NaN`). -/
def jsParseFloat (o : Option String) : Option ℚ :=
  match o with
  | some s => parseFloatStr s
  | none => none

/-- `Number(x)` for a string: trimmed empty input converts to 0, otherwise
the whole string must be numeric (`none` models `NaN`; exponent and hex
notations are not modelled, no input here carries them). -/
def jsNumberConv (s : String) : Option ℚ :=
  let cs := trimB s.data
  if cs.isEmpty then some 0
  else
    let signNeg := cs.headD ' ' = '-'
    let cs2 := match cs with
      | '-' :: t => t
      | '+' :: t => t
      | t => t
    let intPart := cs2.takeWhile Char.isDigit
    let r2 := cs2.dropWhile Char.isDigit
    let rest := match r2 with
      | '.' :: t3 => t3.dropWhile Char.isDigit
      | _ => r2
    let fracPart := match r2 with
      | '.' :: t3 => t3.takeWhile Char.isDigit
      | _ => []
    if (intPart.isEmpty && fracPart.isEmpty) || !rest.isEmpty then none
    else
      let v : ℚ := Rat.ofInt (Int.ofNat (digitsToNat intPart)) +
        mkRat (Int.ofNat (digitsToNat fracPart)) ((10 : ℕ) ^ fracPart.length)
      some (if signNeg then -v else v)

/-- Computable comparison on ℚ (kernel-reducible, used so that concrete
scorer runs can be checked by `decide`). -/
def qLt (a b : ℚ) : Bool := Rat.blt a b

/-- Field-wise Bool equality on ℚ: kernel-friendly for `decide`, unlike the
structure-level `DecidableEq`. -/
def qEq (a b : ℚ) : Bool := a.num == b.num && a.den == b.den

/-- `isOpacityMinValue` (proxy.php lines 1153-1156). -/
def isOpacityMinValue (v : Option String) : Bool :=
  match jsParseFloat v with
  | some q => !qLt q 0 && !qLt (mkRat 1 20) q
  | none => false

/-- The test `/^0(\s*px|\s*%|\s*rem|\s*em|\s*vh|\s*vw)?$/i` of
`calculateBottomScore`. -/
def isZeroHeightStr (cs : List Char) : Bool :=
  match cs with
  | '0' :: rest =>
    rest.isEmpty ||
      (let r := rest.dropWhile jsWs
       ["px", "%", "rem", "em", "vh", "vw"].any (fun u => lowerC r == u.data))
  | _ => false

/-- `calculateBottomScore` (proxy.php lines 1183-1200): −10 for a zero
height declaration, −2 for a near-zero style opacity, −2 for a near-zero
opacity attribute on the node (checked once per style string, as in the
source). -/
def calculateBottomScore (styleStr : String) (n : Node) : Int :=
  (match parseStyleGet styleStr "height" with
   | some hv =>
     let hs := trimS hv
     (match jsParseFloat (some hs) with
      | some q => if q == 0 && isZeroHeightStr hs.data then -10 else 0
      | none => 0)
   | none => 0) +
  (if isOpacityMinValue (parseStyleGet styleStr "opacity") then -2 else 0) +
  (if isOpacityMinValue (n.attr "opacity") then -2 else 0)

/-- The test `/^-([1-9]\d*(\.\d+)?|0\.\d+)(%|\s*rem|\s*em|\s*vh|\s*vw)$/i`
of `calculateTopScore`.  Greedy digit munching is faithful: giving digits
back would leave a digit-initial remainder, which no unit alternative can
match, so the regex never backtracks into the number. -/
def negMarginTest (cs : List Char) : Bool :=
  match cs with
  | '-' :: r =>
    let numRest : Option (List Char) :=
      match r with
      | c :: t =>
        if c.isDigit ∧ c ≠ '0' then
          let t2 := t.dropWhile Char.isDigit
          match t2 with
          | '.' :: t3 =>
            if (t3.takeWhile Char.isDigit).isEmpty then some t2
            else some (t3.dropWhile Char.isDigit)
          | _ => some t2
        else if c = '0' then
          match t with
          | '.' :: t3 =>
            if (t3.takeWhile Char.isDigit).isEmpty then none
            else some (t3.dropWhile Char.isDigit)
          | _ => none
        else none
      | [] => none
    match numRest with
    | none => false
    | some rest =>
      rest == ['%'] ||
        (let rw := rest.dropWhile jsWs
         ["rem", "em", "vh", "vw"].any (fun u => lowerC rw == u.data))
  | _ => false

/-- `calculateTopScore` (proxy.php lines 1207-1226).  Note the source
reads `s.marginTop` and `s.zIndex`, while `parseStyle` stores CSS property
names verbatim (`margin-top`, `z-index`); the reads are kept exactly as
written. -/
def calculateTopScore (styleStr : String) : Int :=
  (match parseStyleGet styleStr "marginTop" with
   | some mv => if negMarginTest (trimS mv).data then 10 else 0
   | none => 0) +
  (match parseStyleGet styleStr "transform" with
   | some tv => if tv != "none" then 5 else 0
   | none => 0) +
  (if parseStyleGet styleStr "isolation" == some "isolate" then 3 else 0) +
  (match parseStyleGet styleStr "zIndex" with
   | some zv =>
     match jsNumberConv zv with
     | some q => if qLt 0 q then 3 else 0
     | none => 0
   | none => 0)

/-- `isSvgValidContainer` (proxy.php lines 1133-1137), kept verbatim: the
node's tag is lowercased and compared against the list
`['svg', 'g', 'foreignObject']`; the third entry is camel-cased and can
therefore never equal a lowercased tag. -/
def isSvgValidContainer (n : Node) : Bool :=
  let t := lowerS n.tag
  t == "svg" || t == "g" || t == "foreignObject"

/-- `findNearestSvgContainer` (proxy.php lines 1144-1146): nearest-first
search over the ancestor chain (given root-first). -/
def findNearestSvgContainer (chain : List Node) : Option Node :=
  chain.reverse.find? isSvgValidContainer

/-- The sibling index computed at proxy.php line 1301:
`nearestContainer.parentNode?.children.findIndex(c => c === nearestContainer) || 0`.
The scorer's nodes are the plain `{tag, attrs, children}` objects built by
`domToObject`, which carry no `parentNode` property, so the optional chain
evaluates to `undefined` and the `|| 0` fallback yields 0 for every
container. -/
def containerSiblingIdx (_ : Node) : Int := 0

/-- `isSvgWidthAnimate` (proxy.php lines 1163-1175). -/
def isSvgWidthAnimate (n : Node) : Bool :=
  lowerS n.tag == "svg" &&
    n.childrenL.any (fun c =>
      lowerS c.tag == "animate" &&
        (c.attr "attributeName").map lowerS == some "width")

/-- Index of the last element of a list satisfying `p`. -/
def lastSatIdx (p : Node → Bool) : List Node → Option Nat
  | [] => none
  | c :: t =>
    match lastSatIdx p t with
    | some j => some (j + 1)
    | none => if p c then some 0 else none

/-- The search `[...parentChain, node].reverse().filter(svg).find(isSvgWidthAnimate)`
(proxy.php lines 1258-1259 and 1308-1309) reduced to the index it lands on:
`isSvgWidthAnimate` itself requires an svg tag, so the svg filter is
subsumed, and the reversed find is the deepest satisfying element. -/
def widthAnimIdx (chain : List Node) (n : Node) : Option Nat :=
  lastSatIdx isSvgWidthAnimate (chain ++ [n])

/-- A collected image record of `traverseCollect` (proxy.php lines
1241-1274): the node, its root-first ancestor chain, and its position path
from the root (used below to model object identity). -/
structure ImgRaw where
  node : Node
  chain : List Node
  path : List Nat
deriving DecidableEq

/-- `node.attrs?.['iftool-src'] || node.attrs?.['iftool-href'] ||
node.attrs?.['iftool-background'] || ''` (proxy.php line 1244). -/
def imgUrlOf (n : Node) : String :=
  jsOr (n.attr "iftool-src") (jsOr (n.attr "iftool-href")
    (jsOr (n.attr "iftool-background") ""))

mutual
/-- `traverseCollect` (proxy.php lines 1241-1276): depth-first, the node
itself first, then its children left to right; `globalOrder` is the
resulting list position. -/
def collectN (chain : List Node) (path : List Nat) : Node → List ImgRaw
  | .element t a cs =>
    let n := Node.element t a cs
    (if imgUrlOf n != "" then [⟨n, chain, path⟩] else []) ++
      collectChildren (chain ++ [n]) path 0 cs
  | n => if imgUrlOf n != "" then [⟨n, chain, path⟩] else []
def collectChildren (chain : List Node) (path : List Nat) (i : Nat) :
    NodeList → List ImgRaw
  | .nil => []
  | .cons c rest =>
    collectN chain (path ++ [i]) c ++ collectChildren chain path (i + 1) rest
end

/-- The group key of the `__widthSvgId__` mechanism: two collected images
share a `widthSvgMap` bucket exactly when their `targetAnimateSvg` is the
same object; `domToObject` builds fresh unshared objects, so object
identity is tree position, i.e. the ancestor's root path — a prefix of the
image's own path of length `widthAnimIdx`. -/
def grpKey (e : ImgRaw) : Option (List Nat) :=
  (widthAnimIdx e.chain e.node).map (fun j => e.path.take j)

/-- `Math.round` based `toFixed(1)`-then-`parseFloat` (proxy.php line
1315).  The values reached are multiples of 1/20; at odd multiples the
decimal tie direction in JavaScript depends on the binary double and every
theorem below evaluates away from ties. -/
def jsToFixed1 (q : ℚ) : ℚ := Rat.divInt (jsMathRound (q * 10)) 10

/-- `toFixed(2)`-then-`parseFloat` (proxy.php line 1326); the scorer's
arguments are exact multiples of 1/100, where this is the identity. -/
def jsToFixed2 (q : ℚ) : ℚ := Rat.divInt (jsMathRound (q * 100)) 100

/-- One `imagesDetail` record (proxy.php lines 1328-1337). -/
structure ImgDetail where
  url : String
  layer : ℚ
  globalOrder : Nat
  totalBottomScore : Int
  totalTopScore : Int
  gfoScore : Int
  animateScore : ℚ
  globalScore : ℚ
deriving DecidableEq

/-- Pair each list element with its position. -/
def idxZip (i : Nat) : List α → List (Nat × α)
  | [] => []
  | x :: t => (i, x) :: idxZip (i + 1) t

/-- The per-image score computation of `calcLayer`'s second pass
(proxy.php lines 1280-1338).  `indexed` is the full collection with global
orders; the `widthSvgMap` bucket of a group is the collection filtered to
the same group key (the buckets are pushed in traversal order, so the
`sort` by `globalOrder` at line 1277 leaves them unchanged). -/
def detailOf (indexed : List (Nat × ImgRaw)) (g : Nat) (e : ImgRaw) : ImgDetail :=
  let nodeStyle := e.node.styleOr
  let allStyles := nodeStyle :: e.chain.map (fun p => p.styleOr)
  let totalBottom : Int := (allStyles.map (fun st => calculateBottomScore st e.node)).sum
  let totalTop : Int := (allStyles.map calculateTopScore).sum
  let gfo : Int :=
    match findNearestSvgContainer e.chain with
    | some c => containerSiblingIdx c * 3
    | none => 0
  let anim : ℚ :=
    match grpKey e with
    | some key =>
      let members := indexed.filter (fun ge => grpKey ge.2 == some key)
      match members.findIdx? (fun ge => ge.1 == g) with
      | some k => jsToFixed1 (100 - Rat.ofInt (Int.ofNat k) * mkRat 1 20)
      | none => 0
    | none => 0
  let globalSc : ℚ := (500 - Rat.ofInt (Int.ofNat g)) * mkRat 1 100
  let layer := jsToFixed2 (20 + Rat.ofInt totalBottom + Rat.ofInt totalTop +
    Rat.ofInt gfo + anim + globalSc)
  ⟨imgUrlOf e.node, layer, g, totalBottom, totalTop, gfo, anim, globalSc⟩

/-- The `imagesDetail` list of `calcLayer` (proxy.php lines 1126-1338). -/
def calcLayerDetails (tree : Node) : List ImgDetail :=
  let indexed := idxZip 0 (collectN [] [] tree)
  indexed.map (fun ge => detailOf indexed ge.1 ge.2)

/-- Insertion step of the final sort (proxy.php lines 1343-1346):
descending by layer, ties ascending by global order. -/
def insDetail (x : ImgDetail) : List ImgDetail → List ImgDetail
  | [] => [x]
  | y :: t =>
    if qLt y.layer x.layer || (x.layer == y.layer && x.globalOrder ≤ y.globalOrder)
    then x :: y :: t else y :: insDetail x t

def sortDetails : List ImgDetail → List ImgDetail
  | [] => []
  | x :: t => insDetail x (sortDetails t)

/-- `topLayerImages` (proxy.php lines 1341-1348): the first `number` urls
of the sorted details.  The preload HTML fragment wrapped around these
urls is a fixed template not needed by any claim. -/
def calcLayerTop (tree : Node) (number : Nat) : List String :=
  ((sortDetails (calcLayerDetails tree)).take number).map (·.url)

-- =====================================================================
-- The neutral-namespace invariant (spec section on migrated resource
-- attributes; extraction writes it, the rules are meant to preserve it)
-- =====================================================================

/-- A style string retains no background declaration: every ';'-piece,
trimmed the way `processStyle` trims, fails the background test. -/
def styleClean (s : String) : Bool :=
  (jsSplitC ';' s.data).all (fun d => !(isBackgroundDecl (trimB d)))

/-- Native/neutral separation on a single node, resource-attribute half:
an `image` element carries no native `href`, an `img` element no native
`src`. -/
def hsNodeInv (n : Node) : Bool :=
  (!(n.tag == "image") || (n.attr "href").isNone) &&
    (!(n.tag == "img") || (n.attr "src").isNone)

/-- Full per-node invariant: the resource-attribute half plus a
background-free style. -/
def nodeInv (n : Node) : Bool := hsNodeInv n && styleClean n.styleOr

/- A node predicate holding everywhere in a tree. -/
mutual
def treeAll (p : Node → Bool) : Node → Bool
  | .element t a cs => p (.element t a cs) && listAll p cs
  | n => p n
def listAll (p : Node → Bool) : NodeList → Bool
  | .nil => true
  | .cons c rest => treeAll p c && listAll p rest
end

/-- The pipeline invariant of the spec on whole trees. -/
def treeInv (n : Node) : Bool := treeAll nodeInv n

/-- The resource-attribute half on whole trees. -/
def hsInv (n : Node) : Bool := treeAll hsNodeInv n

/-- Whole-list version of [treeInv]. -/
def listInv (l : NodeList) : Bool := listAll nodeInv l

/-- Apply a function to the last element of a list (used to describe how
appending separator-free text extends the last piece of a split). -/
def modLast (f : List Char → List Char) : List (List Char) → List (List Char)
  | [] => []
  | [x] => [f x]
  | x :: y :: r => x :: modLast f (y :: r)

-- =====================================================================
-- Concrete input trees used by the claim theorems
-- =====================================================================

def nlReplicate : Nat → Node → NodeList
  | 0, _ => .nil
  | n + 1, x => .cons x (nlReplicate n x)

def nlAppend : NodeList → NodeList → NodeList
  | .nil, l => l
  | .cons c t, l => .cons c (nlAppend t l)

/-- A tracked image inside a `g` that is the second child (sibling index 1)
of a `div`: the nearest stacking container of the image is that `g`. -/
def c1tree : Node :=
  Node.element "div" []
    (NodeList.cons (Node.element "g" [] NodeList.nil)
      (NodeList.cons
        (Node.element "g" []
          (NodeList.cons (Node.element "image" [("iftool-href", "u1")] NodeList.nil)
            NodeList.nil))
        NodeList.nil))

/-- The spec's worked example: `height:0px; opacity:0.02` on the image,
`margin-top:-10%` on its parent. -/
def c2tree : Node :=
  Node.element "g" [("style", "margin-top:-10%")]
    (NodeList.cons
      (Node.element "image"
        [("iftool-href", "u"), ("style", "height:0px; opacity:0.02")] NodeList.nil)
      NodeList.nil)

/-- An svg with a direct `animate` child targeting `width` and three
tracked images inside it, in document order a, b, c. -/
def c3tree : Node :=
  Node.element "div" []
    (NodeList.cons
      (Node.element "svg" []
        (NodeList.cons
          (Node.element "animate" [("attributeName", "width"), ("by", "100")] NodeList.nil)
          (NodeList.cons (Node.element "image" [("iftool-href", "a")] NodeList.nil)
            (NodeList.cons (Node.element "image" [("iftool-href", "b")] NodeList.nil)
              (NodeList.cons (Node.element "image" [("iftool-href", "c")] NodeList.nil)
                NodeList.nil)))))
      NodeList.nil)

/-- 102 tracked images under one root: 101 plain ones and a last one whose
style contributes opacity −2 and isolation +3, i.e. a combined term
surplus of exactly +1 over the first image. -/
def c4plainImg : Node := Node.element "image" [("iftool-href", "p")] NodeList.nil

def c4specialImg : Node :=
  Node.element "image"
    [("iftool-href", "s"), ("style", "opacity: 0.02; isolation: isolate")] NodeList.nil

def c4tree : Node :=
  Node.element "div" []
    (nlAppend (nlReplicate 101 c4plainImg) (NodeList.cons c4specialImg NodeList.nil))

/-- Witness tree for the amended C4 claim: two tracked images whose
combined term difference is exactly 5 (+5 transform on the first). -/
def c4wtree : Node :=
  Node.element "div" []
    (NodeList.cons
      (Node.element "image"
        [("iftool-href", "wa"), ("style", "transform: scale(2)")] NodeList.nil)
      (NodeList.cons (Node.element "image" [("iftool-href", "wb")] NodeList.nil)
        NodeList.nil))

/-- A background-carrying svg nested inside another background-carrying
svg: the outer one matches `svg2image`, and the traversal stops descending
at it, hiding the inner match until a second run. -/
def c5tree : Node :=
  Node.element "div" []
    (NodeList.cons
      (Node.element "svg" [("iftool-background", "u")]
        (NodeList.cons (Node.element "svg" [("iftool-background", "v")] NodeList.nil)
          NodeList.nil))
      NodeList.nil)

/-- An extraction-shaped tree whose svg carries a migrated background and
the background-free style `backtransform: x; ground-image: url(y)`
(exactly what `processStyle` leaves of
`background-image: url(u); backtransform: x;ground-image: url(y)`). -/
def c6tree : Node :=
  Node.element "div" []
    (NodeList.cons
      (Node.element "svg"
        [("iftool-background", "u"),
         ("style", "backtransform: x; ground-image: url(y)")] NodeList.nil)
      NodeList.nil)

/-- A small tree with one `fosvg2image`/`svg2image` match for the return-value
claim. -/
def c8tree : Node :=
  Node.element "div" []
    (NodeList.cons (Node.element "svg" [("iftool-background", "u")] NodeList.nil)
      NodeList.nil)

/-- A bare tracked `img` (no width/height, no children) on which both
`img2image` and `img2svg` match. -/
def c7img : Node := Node.element "img" [("iftool-src", "u")] NodeList.nil

/-- A tracked `img` carrying a width attribute, placed under a
`foreignObject` parent in the witness: `img2svg` still collects it there,
while `img2image` never would. -/
def c7img2 : Node :=
  Node.element "img" [("iftool-src", "u2"), ("width", "9")] NodeList.nil

/-- The synthetic root `parse` returns for an empty document: the
`div#iftool` wrapper with no children. -/
def c10root : Node := Node.element "div" [("id", "iftool")] NodeList.nil

/-- A tree whose serialization contains no `div#iftool` wrapper at all. -/
def c10section : Node := Node.element "section" [("a", "1")] NodeList.nil

/- Count the nodes with a given tag (used to separate trees). -/
mutual
def countTag (t : String) : Node → Nat
  | .element tg _ cs => (if tg == t then 1 else 0) + countTagList t cs
  | _ => 0
def countTagList (t : String) : NodeList → Nat
  | .nil => 0
  | .cons c rest => countTag t c + countTagList t rest
end

-- =====================================================================
-- Theorems
-- =====================================================================

theorem qLt_iff (a b : ℚ) : qLt a b = true ↔ a < b := Eq.to_iff rfl

theorem qEq_iff (a b : ℚ) : qEq a b = true ↔ a = b := by
  unfold qEq
  cases a with
  | mk' an ad anz ared =>
    cases b with
    | mk' bn bd bnz bred => simp [Rat.mk'.injEq]

/-- C1.  The claim says calcLayer's container-order term is three times the
sibling index of the image's nearest stacking-container ancestor.  In
`c1tree` the image's nearest such ancestor is the `g` at sibling index 1
of the root, so the claim predicts a term of 3·1 = 3; the code computes 0
(the scorer's nodes carry no `parentNode` property, so the sibling lookup
at proxy.php line 1301 always falls back to 0), and the image's total score
is the bare 20 + 5.00 global term. -/
theorem claim1_container_term_eval :
    ((calcLayerDetails c1tree).map fun d => (d.gfoScore, qEq d.layer 25)) = [(0, true)] := by
  with_unfolding_all decide

/-- C2.  On the spec's worked example (image style `height:0px;
opacity:0.02`, parent style `margin-top:-10%`) the bottom-deduction total
is −12 as claimed, but the top-addition total is 0, not +10:
`calculateTopScore` reads `s.marginTop` while `parseStyle` stores the key
as `margin-top`. -/
theorem claim2_bottom_top_eval :
    ((calcLayerDetails c2tree).map fun d => (d.totalBottomScore, d.totalTopScore))
      = [(-12, 0)] := by
  with_unfolding_all decide

/-- C3.  In a width-animated svg group of three images a, b, c (document
order), the first image receives animated-width term 100 and the third
99.9: the later image in document order receives the strictly LOWER term,
contradicting the claim's direction (the formula half of the claim,
`100 − 0.05 × index`, is what the code computes). -/
theorem claim3_animate_term_eval :
    ((calcLayerDetails c3tree).map fun d => (d.url, d.globalOrder)) =
        [("a", 0), ("b", 1), ("c", 2)] ∧
      ((calcLayerDetails c3tree).get? 0).map (fun d => qEq d.animateScore 100) = some true ∧
      ((calcLayerDetails c3tree).get? 2).map (fun d => qEq d.animateScore (mkRat 999 10))
        = some true ∧
      qLt (mkRat 999 10) 100 = true := by
  with_unfolding_all decide

set_option maxRecDepth 40000 in
/-- C4 counterexample.  `c4tree` has 102 ≤ 500 tracked images; the last
image's combined bottom/top/container/animation terms exceed the first
image's by exactly 1 (+1 versus 0), yet its final score is 24.99 < 25.00:
the global tiebreak term (5.00 versus 3.99) overturns the integer-level
difference, so the claimed bound is false. -/
theorem claim4_counterexample :
    (calcLayerDetails c4tree).length = 102 ∧
      ((calcLayerDetails c4tree).get? 0).map
          (fun d => (d.totalBottomScore + d.totalTopScore + d.gfoScore,
            qEq d.animateScore 0, qEq d.layer 25)) = some (0, true, true) ∧
      ((calcLayerDetails c4tree).get? 101).map
          (fun d => (d.totalBottomScore + d.totalTopScore + d.gfoScore,
            qEq d.animateScore 0, qEq d.layer (mkRat 2499 100))) = some (1, true, true) ∧
      qLt (mkRat 2499 100) 25 = true := by
  with_unfolding_all decide

theorem idxZip_length (i : Nat) (l : List α) : (idxZip i l).length = l.length := by
  induction l generalizing i with
  | nil => rfl
  | cons x t ih => simp [idxZip, ih]

theorem mem_idxZip {α : Type} {p : Nat × α} :
    ∀ {i : Nat} {l : List α}, p ∈ idxZip i l → i ≤ p.1 ∧ p.1 < i + l.length := by
  intro i l
  induction l generalizing i with
  | nil => intro h; simp [idxZip] at h
  | cons x t ih =>
    intro h
    simp only [idxZip, List.mem_cons] at h
    rcases h with h | h
    · subst h; simp
    · have hih := ih h
      have hlc : (x :: t).length = t.length + 1 := rfl
      omega

theorem detailOf_globalOrder (idx : List (Nat × ImgRaw)) (g : Nat) (e : ImgRaw) :
    (detailOf idx g e).globalOrder = g := rfl

theorem detailOf_globalScore (idx : List (Nat × ImgRaw)) (g : Nat) (e : ImgRaw) :
    (detailOf idx g e).globalScore = (500 - Rat.ofInt (Int.ofNat g)) * mkRat 1 100 := rfl

theorem detailOf_layer (idx : List (Nat × ImgRaw)) (g : Nat) (e : ImgRaw) :
    (detailOf idx g e).layer =
      jsToFixed2 (20 + Rat.ofInt (detailOf idx g e).totalBottomScore +
        Rat.ofInt (detailOf idx g e).totalTopScore + Rat.ofInt (detailOf idx g e).gfoScore +
        (detailOf idx g e).animateScore + (detailOf idx g e).globalScore) := rfl

theorem detailOf_anim (idx : List (Nat × ImgRaw)) (g : Nat) (e : ImgRaw) :
    ∃ z : ℤ, (detailOf idx g e).animateScore = Rat.divInt z 10 := by
  show ∃ z : ℤ,
    (match grpKey e with
     | some key =>
       match (idx.filter (fun ge => grpKey ge.2 == some key)).findIdx? (fun ge => ge.1 == g) with
       | some k => jsToFixed1 (100 - Rat.ofInt (Int.ofNat k) * mkRat 1 20)
       | none => 0
     | none => (0 : ℚ)) = Rat.divInt z 10
  cases hk : grpKey e with
  | none => exact ⟨0, by simp [Rat.zero_divInt]⟩
  | some key =>
    show ∃ z : ℤ,
      (match (idx.filter (fun ge => grpKey ge.2 == some key)).findIdx? (fun ge => ge.1 == g) with
       | some k => jsToFixed1 (100 - Rat.ofInt (Int.ofNat k) * mkRat 1 20)
       | none => (0 : ℚ)) = Rat.divInt z 10
    cases hf : (idx.filter (fun ge => grpKey ge.2 == some key)).findIdx? (fun ge => ge.1 == g) with
    | none => exact ⟨0, by simp [Rat.zero_divInt]⟩
    | some k =>
      exact ⟨jsMathRound ((100 - Rat.ofInt (Int.ofNat k) * mkRat 1 20) * 10), rfl⟩

theorem jsToFixed2_hundredths (z : ℤ) : jsToFixed2 (Rat.divInt z 100) = Rat.divInt z 100 := by
  unfold jsToFixed2 jsMathRound
  have h1 : (Rat.divInt z 100 : ℚ) * 100 = (z : ℚ) := by
    rw [Rat.divInt_eq_div]
    field_simp
  rw [h1]
  have h2 : ⌊(z : ℚ) + 1 / 2⌋ = z := by
    rw [add_comm, Int.floor_add_int]
    norm_num
  rw [h2]

theorem glob_eq (g : Nat) :
    (500 - Rat.ofInt (Int.ofNat g)) * mkRat 1 100 = (500 - (g : ℚ)) / 100 := by
  rw [Rat.mkRat_eq_div]
  have h : Rat.ofInt (Int.ofNat g) = ((g : ℤ) : ℚ) := rfl
  rw [h]
  push_cast
  ring

theorem detailOf_layer_exact (idx : List (Nat × ImgRaw)) (g : Nat) (e : ImgRaw) :
    (detailOf idx g e).layer =
      20 + ((detailOf idx g e).totalBottomScore : ℚ) + (detailOf idx g e).totalTopScore +
        (detailOf idx g e).gfoScore + (detailOf idx g e).animateScore +
        (500 - (g : ℚ)) / 100 := by
  obtain ⟨z, hz⟩ := detailOf_anim idx g e
  have hB : Rat.ofInt (detailOf idx g e).totalBottomScore =
      ((detailOf idx g e).totalBottomScore : ℚ) := rfl
  have hT : Rat.ofInt (detailOf idx g e).totalTopScore =
      ((detailOf idx g e).totalTopScore : ℚ) := rfl
  have hG : Rat.ofInt (detailOf idx g e).gfoScore = ((detailOf idx g e).gfoScore : ℚ) := rfl
  have harg : (20 : ℚ) + Rat.ofInt (detailOf idx g e).totalBottomScore +
      Rat.ofInt (detailOf idx g e).totalTopScore + Rat.ofInt (detailOf idx g e).gfoScore +
      (detailOf idx g e).animateScore + (detailOf idx g e).globalScore =
      Rat.divInt (2000 + 100 * (detailOf idx g e).totalBottomScore +
        100 * (detailOf idx g e).totalTopScore + 100 * (detailOf idx g e).gfoScore +
        10 * z + (500 - Int.ofNat g)) 100 := by
    rw [hz, detailOf_globalScore, glob_eq, hB, hT, hG, Rat.divInt_eq_div, Rat.divInt_eq_div]
    push_cast [Int.ofNat_eq_natCast]
    ring
  rw [detailOf_layer, harg, jsToFixed2_hundredths, ← harg, hz, detailOf_globalScore, glob_eq,
    hB, hT, hG]

theorem mem_calcLayerDetails {t : Node} {d : ImgDetail} (h : d ∈ calcLayerDetails t) :
    ∃ g e, (g, e) ∈ idxZip 0 (collectN [] [] t) ∧
      d = detailOf (idxZip 0 (collectN [] [] t)) g e := by
  unfold calcLayerDetails at h
  obtain ⟨⟨g, e⟩, hm, hd⟩ := List.mem_map.1 h
  exact ⟨g, e, hm, hd.symm⟩

/-- C4 amended.  For documents with at most 500 tracked images, the global
tiebreak term cannot overturn a difference of at least 5 in the combined
bottom/top/container/animation terms: if one image's combined terms exceed
another's by at least 5, its final score is strictly greater.  (The
original bound of 1 is false — the tiebreak spread reaches 4.99 — as the
counterexample shows; 5 is the least integer bound the weight guarantees.) -/
theorem claim4_amended (t : Node) (d1 d2 : ImgDetail)
    (hlen : (calcLayerDetails t).length ≤ 500)
    (h1 : d1 ∈ calcLayerDetails t) (h2 : d2 ∈ calcLayerDetails t)
    (hge : ((d2.totalBottomScore : ℚ) + d2.totalTopScore + d2.gfoScore) + d2.animateScore + 5 ≤
      ((d1.totalBottomScore : ℚ) + d1.totalTopScore + d1.gfoScore) + d1.animateScore) :
    d2.layer < d1.layer := by
  obtain ⟨g1, e1, hm1, rfl⟩ := mem_calcLayerDetails h1
  obtain ⟨g2, e2, hm2, rfl⟩ := mem_calcLayerDetails h2
  have hlen2 : (calcLayerDetails t).length = (idxZip 0 (collectN [] [] t)).length := by
    unfold calcLayerDetails
    rw [List.length_map]
  have hg1 : g1 < 500 := by
    have hlt : g1 < (calcLayerDetails t).length := by
      rw [hlen2, idxZip_length]
      simpa using (mem_idxZip hm1).2
    omega
  have hg2nn : (0 : ℚ) ≤ (g2 : ℚ) := by positivity
  have hg1b : (g1 : ℚ) ≤ 499 := by
    exact_mod_cast Nat.cast_le.2 (show g1 ≤ 499 by omega)
  rw [detailOf_layer_exact, detailOf_layer_exact]
  have hpos : (0 : ℚ) < 100 := by norm_num
  have hx : (1 : ℚ) / 100 ≤ (500 - (g1 : ℚ)) / 100 :=
    (div_le_div_iff_of_pos_right hpos).2 (by linarith)
  have hy : (500 - (g2 : ℚ)) / 100 ≤ 5 := by
    rw [div_le_iff₀ hpos]
    linarith
  linarith [hge]

/-- Witness: on `c4wtree` (2 ≤ 500 images, first image exceeds the second
by exactly 5 in combined terms), the first image's score is strictly
higher. -/
theorem claim4_amended_witness :
    ((calcLayerDetails c4wtree).get ⟨1, by with_unfolding_all decide⟩).layer <
      ((calcLayerDetails c4wtree).get ⟨0, by with_unfolding_all decide⟩).layer :=
  claim4_amended c4wtree _ _ (by with_unfolding_all decide)
    (List.get_mem _ _ _) (List.get_mem _ _ _) (by with_unfolding_all decide)

theorem rwGo_tag (m : String → Node → Bool) (w : Node → Node) (n : Node) :
    (rwGo m w n).tag = n.tag := by cases n <;> rfl

theorem rwGo_attrsL (m : String → Node → Bool) (w : Node → Node) (n : Node) :
    (rwGo m w n).attrsL = n.attrsL := by cases n <;> rfl

theorem rwGo_attr (m : String → Node → Bool) (w : Node → Node) (n : Node) (k : String) :
    (rwGo m w n).attr k = n.attr k := by
  unfold Node.attr
  rw [rwGo_attrsL]

theorem rwChildren_isEmpty (m : String → Node → Bool) (w : Node → Node) (pt : String)
    (l : NodeList) : (rwChildren m w pt l).isEmpty = l.isEmpty := by
  cases l <;> rfl

theorem rwGo_childrenL_isEmpty (m : String → Node → Bool) (w : Node → Node) (n : Node) :
    (rwGo m w n).childrenL.isEmpty = n.childrenL.isEmpty := by
  cases n with
  | element t a cs => exact rwChildren_isEmpty m w t cs
  | textLeaf s => rfl
  | commentLeaf s => rfl

theorem findFirst_prop (p : Node → Bool) :
    ∀ (l : NodeList) (x : Node), l.findFirst p = some x → p x = true
  | .nil, x, h => by simp [NodeList.findFirst] at h
  | .cons c t, x, h => by
    unfold NodeList.findFirst at h
    split at h
    · cases h; assumption
    · exact findFirst_prop p t x h

theorem findFirst_rwChildren (m : String → Node → Bool) (w : Node → Node) (p : Node → Bool)
    (pt : String)
    (hp : ∀ c, p (if m pt c = true then w c else rwGo m w c) = p c) :
    ∀ (l : NodeList),
      (rwChildren m w pt l).findFirst p =
        (l.findFirst p).map fun c => if m pt c = true then w c else rwGo m w c
  | .nil => rfl
  | .cons c t => by
    show NodeList.findFirst p
        (.cons (if m pt c = true then w c else rwGo m w c) (rwChildren m w pt t)) = _
    unfold NodeList.findFirst
    rw [hp c]
    by_cases hc : p c = true
    · simp [hc]
    · rw [Bool.eq_false_iff.2 hc]
      rw [findFirst_rwChildren m w p pt hp t]
      simp

set_option linter.unusedSectionVars false

section RwIdem
variable (m : String → Node → Bool) (w : Node → Node)
variable (hA : ∀ pt n, m pt n = true → (∀ pt2, m pt2 (w n) = false) ∧ rwGo m w (w n) = w n)
variable (hB : ∀ pt n, m pt n = false → m pt (rwGo m w n) = false)

include hA hB

mutual
theorem rwGo_idem : ∀ n, rwGo m w (rwGo m w n) = rwGo m w n
  | .element t a cs => by
    simp only [rwGo]
    exact congrArg _ (rwChildren_idem t cs)
  | .textLeaf s => by simp [rwGo]
  | .commentLeaf s => by simp [rwGo]
theorem rwChildren_idem : ∀ (pt : String) (l : NodeList),
    rwChildren m w pt (rwChildren m w pt l) = rwChildren m w pt l
  | pt, .nil => by simp [rwChildren]
  | pt, .cons c rest => by
    simp only [rwChildren]
    refine congrArg₂ _ ?_ (rwChildren_idem pt rest)
    by_cases h : m pt c = true
    · simp only [h, if_true]
      have hac := hA pt c h
      simp [hac.1 pt, hac.2]
    · have hf : m pt c = false := by simpa using h
      simp only [hf, Bool.false_eq_true, if_false]
      have hbc := hB pt c hf
      simp [hbc, rwGo_idem c]
end

end RwIdem

-- match invariance under rwGo, per rule

theorem mSvg2img_inv (pt : String) (n : Node) :
    mSvg2img pt (rwGo mSvg2img wSvg2img n) = mSvg2img pt n := by
  unfold mSvg2img
  rw [rwGo_tag, rwGo_attr, rwGo_childrenL_isEmpty]

theorem mImage2any_inv (w : Node → Node) (pt : String) (n : Node) :
    mImage2any pt (rwGo mImage2any w n) = mImage2any pt n := by
  unfold mImage2any
  rw [rwGo_tag, rwGo_attr, rwGo_childrenL_isEmpty]

theorem mImg2svg_inv (w : Node → Node) (pt : String) (n : Node) :
    mImg2svg pt (rwGo mImg2svg w n) = mImg2svg pt n := by
  unfold mImg2svg
  rw [rwGo_tag, rwGo_attr, rwGo_childrenL_isEmpty]

theorem mImg2image_inv (w : Node → Node) (pt : String) (n : Node) :
    mImg2image pt (rwGo mImg2image w n) = mImg2image pt n := by
  unfold mImg2image
  rw [rwGo_tag, rwGo_attr, rwGo_attr, rwGo_attr]

theorem mFosvg2image_inv (pt : String) (n : Node) :
    mFosvg2image pt (rwGo mFosvg2image wFosvg2image n) = mFosvg2image pt n := by
  cases n with
  | textLeaf s => rfl
  | commentLeaf s => rfl
  | element t a cs =>
    have hp : ∀ c : Node,
        ((if mFosvg2image t c = true then wFosvg2image c
          else rwGo mFosvg2image wFosvg2image c).tag == "svg") = (c.tag == "svg") := by
      intro c
      by_cases hc : mFosvg2image t c = true
      · have htag : c.tag = "foreignObject" := by
          unfold mFosvg2image at hc
          rw [Bool.and_eq_true] at hc
          simpa using hc.1
        simp only [hc, if_true]
        unfold wFosvg2image
        cases hfs : firstSvgChild c with
        | none => rfl
        | some s =>
          show (("image" : String) == "svg") = (c.tag == "svg")
          rw [htag]
          decide
      · have hcf : mFosvg2image t c = false := by simpa using hc
        simp only [hcf, Bool.false_eq_true, if_false]
        rw [rwGo_tag]
    have hdef : ∀ (pt2 : String) (x : Node), mFosvg2image pt2 x =
        ((x.tag == "foreignObject") &&
          (match firstSvgChild x with
           | some s => truthy (s.attr "iftool-background") && s.childrenL.isEmpty
           | none => false)) := fun _ _ => rfl
    show mFosvg2image pt
        (Node.element t a (rwChildren mFosvg2image wFosvg2image t cs)) =
      mFosvg2image pt (Node.element t a cs)
    rw [hdef, hdef]
    have hff : firstSvgChild (Node.element t a (rwChildren mFosvg2image wFosvg2image t cs)) =
        (firstSvgChild (Node.element t a cs)).map
          (fun c => if mFosvg2image t c = true then wFosvg2image c
            else rwGo mFosvg2image wFosvg2image c) := by
      unfold firstSvgChild
      exact findFirst_rwChildren _ _ _ _ hp cs
    rw [hff]
    have htg : (Node.element t a (rwChildren mFosvg2image wFosvg2image t cs)).tag = t := rfl
    have htg2 : (Node.element t a cs).tag = t := rfl
    rw [htg, htg2]
    cases hfs : firstSvgChild (Node.element t a cs) with
    | none => rfl
    | some S =>
      have hS : (S.tag == "svg") = true := findFirst_prop _ _ _ hfs
      have htagS : S.tag = "svg" := by simpa using hS
      have hmS : mFosvg2image t S = false := by
        rw [hdef, htagS]
        rfl
      rw [show Option.map
          (fun c => if mFosvg2image t c = true then wFosvg2image c
            else rwGo mFosvg2image wFosvg2image c) (some S) =
          some (if mFosvg2image t S = true then wFosvg2image S
            else rwGo mFosvg2image wFosvg2image S) from rfl, hmS]
      simp only [Bool.false_eq_true, if_false]
      rw [rwGo_attr, rwGo_childrenL_isEmpty]

theorem mFoimg2image_inv (pt : String) (n : Node) :
    mFoimg2image pt (rwGo mFoimg2image wFoimg2image n) = mFoimg2image pt n := by
  cases n with
  | textLeaf s => rfl
  | commentLeaf s => rfl
  | element t a cs =>
    have hdef : ∀ (pt2 : String) (x : Node), mFoimg2image pt2 x =
        ((x.tag == "foreignObject") &&
          (match firstImgChild x with
           | some i => truthy (i.attr "iftool-src") && i.childrenL.isEmpty
           | none => false)) := fun _ _ => rfl
    have hp : ∀ c : Node,
        ((if mFoimg2image t c = true then wFoimg2image c
          else rwGo mFoimg2image wFoimg2image c).tag == "img") = (c.tag == "img") := by
      intro c
      by_cases hc : mFoimg2image t c = true
      · have htag : c.tag = "foreignObject" := by
          unfold mFoimg2image at hc
          rw [Bool.and_eq_true] at hc
          simpa using hc.1
        simp only [hc, if_true]
        unfold wFoimg2image
        cases hfs : firstImgChild c with
        | none => rfl
        | some i =>
          show (("image" : String) == "img") = (c.tag == "img")
          rw [htag]
          decide
      · have hcf : mFoimg2image t c = false := by simpa using hc
        simp only [hcf, Bool.false_eq_true, if_false]
        rw [rwGo_tag]
    show mFoimg2image pt
        (Node.element t a (rwChildren mFoimg2image wFoimg2image t cs)) =
      mFoimg2image pt (Node.element t a cs)
    rw [hdef, hdef]
    have hff : firstImgChild (Node.element t a (rwChildren mFoimg2image wFoimg2image t cs)) =
        (firstImgChild (Node.element t a cs)).map
          (fun c => if mFoimg2image t c = true then wFoimg2image c
            else rwGo mFoimg2image wFoimg2image c) := by
      unfold firstImgChild
      exact findFirst_rwChildren _ _ _ _ hp cs
    rw [hff]
    have htg : (Node.element t a (rwChildren mFoimg2image wFoimg2image t cs)).tag = t := rfl
    have htg2 : (Node.element t a cs).tag = t := rfl
    rw [htg, htg2]
    cases hfs : firstImgChild (Node.element t a cs) with
    | none => rfl
    | some I =>
      have hS : (I.tag == "img") = true := findFirst_prop _ _ _ hfs
      have htagS : I.tag = "img" := by simpa using hS
      have hmS : mFoimg2image t I = false := by
        rw [hdef, htagS]
        rfl
      rw [show Option.map
          (fun c => if mFoimg2image t c = true then wFoimg2image c
            else rwGo mFoimg2image wFoimg2image c) (some I) =
          some (if mFoimg2image t I = true then wFoimg2image I
            else rwGo mFoimg2image wFoimg2image I) from rfl, hmS]
      simp only [Bool.false_eq_true, if_false]
      rw [rwGo_attr, rwGo_childrenL_isEmpty]

-- no-match-by-tag lemmas

theorem mFosvg2image_ne {n : Node} (h : n.tag ≠ "foreignObject") (pt : String) :
    mFosvg2image pt n = false := by
  unfold mFosvg2image
  rw [show (n.tag == "foreignObject") = false by simpa using h]
  exact Bool.false_and _

theorem mFoimg2image_ne {n : Node} (h : n.tag ≠ "foreignObject") (pt : String) :
    mFoimg2image pt n = false := by
  unfold mFoimg2image
  rw [show (n.tag == "foreignObject") = false by simpa using h]
  exact Bool.false_and _

theorem mSvg2img_ne {n : Node} (h : n.tag ≠ "svg") (pt : String) :
    mSvg2img pt n = false := by
  unfold mSvg2img
  rw [show (n.tag == "svg") = false by simpa using h]
  exact Bool.false_and _

theorem mImage2any_ne {n : Node} (h : n.tag ≠ "image") (pt : String) :
    mImage2any pt n = false := by
  unfold mImage2any
  rw [show (n.tag == "image") = false by simpa using h]
  exact Bool.false_and _

theorem mImg2image_ne {n : Node} (h : n.tag ≠ "img") (pt : String) :
    mImg2image pt n = false := by
  unfold mImg2image
  rw [show (n.tag == "img") = false by simpa using h]
  exact Bool.false_and _

theorem mImg2svg_ne {n : Node} (h : n.tag ≠ "img") (pt : String) :
    mImg2svg pt n = false := by
  unfold mImg2svg
  rw [show (n.tag == "img") = false by simpa using h]
  exact Bool.false_and _

-- replacement-inertness lemmas (matched rewrites never re-match and are
-- left unchanged by a further pass)

theorem fosvgA (pt : String) (n : Node) (h : mFosvg2image pt n = true) :
    (∀ pt2, mFosvg2image pt2 (wFosvg2image n) = false) ∧
      rwGo mFosvg2image wFosvg2image (wFosvg2image n) = wFosvg2image n := by
  cases hfs : firstSvgChild n with
  | none =>
    exfalso
    unfold mFosvg2image at h
    rw [Bool.and_eq_true] at h
    rw [hfs] at h
    simpa using h.2
  | some s =>
    unfold wFosvg2image
    rw [hfs]
    have hne : ("image" : String) ≠ "foreignObject" := by decide
    refine ⟨fun pt2 => ?_, rfl⟩
    apply mFosvg2image_ne
    intro hh
    exact hne hh

theorem foimgA (pt : String) (n : Node) (h : mFoimg2image pt n = true) :
    (∀ pt2, mFoimg2image pt2 (wFoimg2image n) = false) ∧
      rwGo mFoimg2image wFoimg2image (wFoimg2image n) = wFoimg2image n := by
  cases hfs : firstImgChild n with
  | none =>
    exfalso
    unfold mFoimg2image at h
    rw [Bool.and_eq_true] at h
    rw [hfs] at h
    simpa using h.2
  | some i =>
    unfold wFoimg2image
    rw [hfs]
    have hne : ("image" : String) ≠ "foreignObject" := by decide
    refine ⟨fun pt2 => ?_, rfl⟩
    apply mFoimg2image_ne
    intro hh
    exact hne hh

theorem svg2imgA (pt : String) (n : Node) (_ : mSvg2img pt n = true) :
    (∀ pt2, mSvg2img pt2 (wSvg2img n) = false) ∧
      rwGo mSvg2img wSvg2img (wSvg2img n) = wSvg2img n := by
  have hne : ("img" : String) ≠ "svg" := by decide
  refine ⟨fun pt2 => ?_, rfl⟩
  apply mSvg2img_ne
  intro hh
  exact hne hh

theorem image2imgA (pt : String) (n : Node) (_ : mImage2any pt n = true) :
    (∀ pt2, mImage2any pt2 (wImage2img n) = false) ∧
      rwGo mImage2any wImage2img (wImage2img n) = wImage2img n := by
  have hne : ("g" : String) ≠ "image" := by decide
  refine ⟨fun pt2 => ?_, rfl⟩
  apply mImage2any_ne
  intro hh
  exact hne hh

theorem image2svgA (pt : String) (n : Node) (_ : mImage2any pt n = true) :
    (∀ pt2, mImage2any pt2 (wImage2svg n) = false) ∧
      rwGo mImage2any wImage2svg (wImage2svg n) = wImage2svg n := by
  have hne : ("g" : String) ≠ "image" := by decide
  refine ⟨fun pt2 => ?_, rfl⟩
  apply mImage2any_ne
  intro hh
  exact hne hh

theorem img2imageA (probe : String → Option ℚ) (pt : String) (n : Node)
    (_ : mImg2image pt n = true) :
    (∀ pt2, mImg2image pt2 (wImg2image probe n) = false) ∧
      rwGo mImg2image (wImg2image probe) (wImg2image probe n) = wImg2image probe n := by
  have hne : ("svg" : String) ≠ "img" := by decide
  unfold wImg2image
  cases hpr : probe ((n.attr "iftool-src").getD "") with
  | some r =>
    refine ⟨fun pt2 => ?_, rfl⟩
    apply mImg2image_ne
    intro hh
    exact hne hh
  | none =>
    unfold img2imageFallback
    refine ⟨fun pt2 => ?_, rfl⟩
    apply mImg2image_ne
    intro hh
    exact hne hh

theorem img2svgA (probe : String → Option ℚ) (pt : String) (n : Node)
    (_ : mImg2svg pt n = true) :
    (∀ pt2, mImg2svg pt2 (wImg2svg probe n) = false) ∧
      rwGo mImg2svg (wImg2svg probe) (wImg2svg probe n) = wImg2svg probe n := by
  have hne : ("svg" : String) ≠ "img" := by decide
  unfold wImg2svg
  cases hpr : probe ((n.attr "iftool-src").getD "") with
  | some r =>
    refine ⟨fun pt2 => ?_, rfl⟩
    apply mImg2svg_ne
    intro hh
    exact hne hh
  | none =>
    unfold img2svgFallback
    refine ⟨fun pt2 => ?_, rfl⟩
    apply mImg2svg_ne
    intro hh
    exact hne hh

/-- C5: of the eight DOM-rewrite rules, seven are idempotent: running
`fosvg2image`, `svg2img`, `image2img`, `image2svg`, `foimg2image`,
`img2image` or `img2svg` a second time on its own output changes nothing,
because each replacement's root tag differs from the rule's trigger tag
and a pass can only turn non-matching nodes into non-matching nodes. -/
theorem claim5_amended :
    (∀ t, fosvg2image (fosvg2image t) = fosvg2image t) ∧
      (∀ t, svg2img (svg2img t) = svg2img t) ∧
      (∀ t, image2img (image2img t) = image2img t) ∧
      (∀ t, image2svg (image2svg t) = image2svg t) ∧
      (∀ t, foimg2image (foimg2image t) = foimg2image t) ∧
      (∀ probe t, img2image probe (img2image probe t) = img2image probe t) ∧
      (∀ probe t, img2svg probe (img2svg probe t) = img2svg probe t) := by
  refine ⟨?_, ?_, ?_, ?_, ?_, ?_, ?_⟩
  · exact rwGo_idem _ _ fosvgA (fun pt n h => by rw [mFosvg2image_inv]; exact h)
  · exact rwGo_idem _ _ svg2imgA (fun pt n h => by rw [mSvg2img_inv]; exact h)
  · exact rwGo_idem _ _ image2imgA (fun pt n h => by rw [mImage2any_inv]; exact h)
  · exact rwGo_idem _ _ image2svgA (fun pt n h => by rw [mImage2any_inv]; exact h)
  · exact rwGo_idem _ _ foimgA (fun pt n h => by rw [mFoimg2image_inv]; exact h)
  · intro probe
    exact rwGo_idem _ _ (img2imageA probe) (fun pt n h => by rw [mImg2image_inv]; exact h)
  · intro probe
    exact rwGo_idem _ _ (img2svgA probe) (fun pt n h => by rw [mImg2svg_inv]; exact h)

/-- C5 counterexample: `svg2image` is not idempotent. On a tree with a
background-carrying svg nested under another background-carrying svg, the
first pass rewrites the outer svg (prepending one `<image>` and deleting
its `iftool-background`) and stops descending there, so the inner svg is
untouched; on the second pass the outer svg no longer matches, the
traversal descends, and the inner svg is rewritten too: the `<image>`
count goes 1, then 2. -/
theorem claim5_counterexample :
    countTag "image" (svg2image c5tree) = 1 ∧
      countTag "image" (svg2image (svg2image c5tree)) = 2 ∧
      svg2image (svg2image c5tree) ≠ svg2image c5tree := by
  have h1 : countTag "image" (svg2image c5tree) = 1 := by decide
  have h2 : countTag "image" (svg2image (svg2image c5tree)) = 2 := by decide
  exact ⟨h1, h2, fun h => by rw [h, h1] at h2; exact absurd h2 (by decide)⟩

/-- C8 counterexample: `fosvg2image` and `svg2image` do not return the tree
they were given — their bodies end without a `return`, so the async
function resolves with `undefined` (modeled as `none`), even on an input
the rule actually mutates. -/
theorem claim8_counterexample :
    fosvg2imageReturn c8tree = none ∧ svg2imageReturn c8tree = none ∧
      svg2image c8tree ≠ c8tree := by
  refine ⟨rfl, rfl, ?_⟩
  intro h
  exact absurd (congrArg (countTag "image") h) (by decide)

/-- C8: six of the eight rewrite rules end with `return tree` and resolve
with the (mutated) tree they were passed; `fosvg2image` and `svg2image`
have no return statement and resolve with `undefined`. -/
theorem claim8_amended :
    (∀ t, fosvg2imageReturn t = none) ∧
      (∀ t, svg2imageReturn t = none) ∧
      (∀ t, svg2imgReturn t = some (svg2img t)) ∧
      (∀ t, image2imgReturn t = some (image2img t)) ∧
      (∀ t, image2svgReturn t = some (image2svg t)) ∧
      (∀ t, foimg2imageReturn t = some (foimg2image t)) ∧
      (∀ probe t, img2imageReturn probe t = some (img2image probe t)) ∧
      (∀ probe t, img2svgReturn probe t = some (img2svg probe t)) :=
  ⟨fun _ => rfl, fun _ => rfl, fun _ => rfl, fun _ => rfl, fun _ => rfl,
    fun _ => rfl, fun _ _ => rfl, fun _ _ => rfl⟩

/- A key outside the whitelist (and not `data-`-prefixed) is never found in
a `filterPreservedAttrs` prefix. -/
theorem getAttr_filterPreserved_append (a l : List (String × String)) (k : String)
    (h1 : preservedAttrsList.contains k = false)
    (h2 : strBegins "data-" k = false) :
    getAttr (filterPreservedAttrs a ++ l) k = getAttr l k := by
  have hnone : (filterPreservedAttrs a).find? (fun p => p.1 == k) = none := by
    rw [List.find?_eq_none]
    intro x hx
    have hx2 : x ∈ a.filter
        (fun p => preservedAttrsList.contains p.1 || strBegins "data-" p.1) := hx
    have hq := List.of_mem_filter hx2
    intro hxk
    have hxe : x.1 = k := by simpa using hxk
    rw [hxe] at hq
    rw [Bool.or_eq_true] at hq
    cases hq with
    | inl h => rw [h1] at h; exact absurd h (by decide)
    | inr h => rw [h2] at h; exact absurd h (by decide)
  simp [getAttr, List.find?_append, hnone]

/-- C7: each rule's fallback guarantee over that rule's own match set.
On any collected `img2image` match whose ratio probe rejects, the matched
`img` child is replaced by the documented catch-branch fallback (an `svg`
with viewBox `0 0 100% 100%` whose `image` child carries the img's src as
`iftool-href`); independently, on any collected `img2svg` match whose
probe rejects — including matches inside a `foreignObject` parent or
carrying width/height attributes, which `img2image` never collects — the
child is replaced by an `svg` with viewBox `0 0 100% 100%` carrying the
src as `iftool-background`; and both rules always resolve normally with
the tree. -/
theorem claim7_probe_fallback (probe : String → Option ℚ)
    (pt : String) (n : Node) (rest : NodeList)
    (pt2 : String) (n2 : Node) (rest2 : NodeList)
    (hm : mImg2image pt n = true)
    (hp : probe ((n.attr "iftool-src").getD "") = none)
    (hm2 : mImg2svg pt2 n2 = true)
    (hp2 : probe ((n2.attr "iftool-src").getD "") = none) :
    rwChildren mImg2image (wImg2image probe) pt (NodeList.cons n rest)
        = NodeList.cons (img2imageFallback n)
            (rwChildren mImg2image (wImg2image probe) pt rest) ∧
      (img2imageFallback n).tag = "svg" ∧
      (img2imageFallback n).attr "viewBox" = some "0 0 100% 100%" ∧
      ((img2imageFallback n).childrenL.findFirst
          (fun c => c.tag == "image")).bind (fun c => c.attr "iftool-href")
        = some ((n.attr "iftool-src").getD "") ∧
      rwChildren mImg2svg (wImg2svg probe) pt2 (NodeList.cons n2 rest2)
        = NodeList.cons (img2svgFallback n2)
            (rwChildren mImg2svg (wImg2svg probe) pt2 rest2) ∧
      (img2svgFallback n2).tag = "svg" ∧
      (img2svgFallback n2).attr "viewBox" = some "0 0 100% 100%" ∧
      (img2svgFallback n2).attr "iftool-background"
        = some ((n2.attr "iftool-src").getD "") ∧
      (∀ t, img2imageReturn probe t = some (img2image probe t)) ∧
      (∀ t, img2svgReturn probe t = some (img2svg probe t)) := by
  have hvb : preservedAttrsList.contains "viewBox" = false := by decide
  have hvb2 : strBegins "data-" "viewBox" = false := by decide
  have hbg : preservedAttrsList.contains "iftool-background" = false := by decide
  have hbg2 : strBegins "data-" "iftool-background" = false := by decide
  have hhr : preservedAttrsList.contains "iftool-href" = false := by decide
  have hhr2 : strBegins "data-" "iftool-href" = false := by decide
  refine ⟨?_, rfl, ?_, ?_, ?_, rfl, ?_, ?_, fun t => rfl, fun t => rfl⟩
  · have hw : wImg2image probe n = img2imageFallback n := by
      unfold wImg2image
      rw [hp]
    show NodeList.cons
        (if mImg2image pt n then wImg2image probe n
         else rwGo mImg2image (wImg2image probe) n)
        (rwChildren mImg2image (wImg2image probe) pt rest) = _
    rw [hm, hw]
    simp
  · rfl
  · show getAttr (filterPreservedAttrs n.attrsL ++
        [("iftool-href", (n.attr "iftool-src").getD ""),
         ("x", "0"), ("y", "0"), ("width", "100%"), ("height", "100%")])
        "iftool-href" = some ((n.attr "iftool-src").getD "")
    rw [getAttr_filterPreserved_append _ _ _ hhr hhr2]
    rfl
  · have hw : wImg2svg probe n2 = img2svgFallback n2 := by
      unfold wImg2svg
      rw [hp2]
    show NodeList.cons
        (if mImg2svg pt2 n2 then wImg2svg probe n2
         else rwGo mImg2svg (wImg2svg probe) n2)
        (rwChildren mImg2svg (wImg2svg probe) pt2 rest2) = _
    rw [hm2, hw]
    simp
  · show getAttr (filterPreservedAttrs n2.attrsL ++
        [("viewBox", "0 0 100% 100%"), ("style", n2.styleOr),
         ("iftool-background", (n2.attr "iftool-src").getD "")])
        "viewBox" = some "0 0 100% 100%"
    rw [getAttr_filterPreserved_append _ _ _ hvb hvb2]
    rfl
  · show getAttr (filterPreservedAttrs n2.attrsL ++
        [("viewBox", "0 0 100% 100%"), ("style", n2.styleOr),
         ("iftool-background", (n2.attr "iftool-src").getD "")])
        "iftool-background" = some ((n2.attr "iftool-src").getD "")
    rw [getAttr_filterPreserved_append _ _ _ hbg hbg2]
    rfl

/-- C7 witness: the img2image half instantiated on a bare tracked img
under a div parent, and the img2svg half on a width-carrying img under a
`foreignObject` parent (a match img2image would never collect), both with
the always-rejecting probe. -/
theorem claim7_probe_fallback_witness :
    mImg2image "div" c7img = true ∧ mImg2svg "foreignObject" c7img2 = true ∧
      mImg2image "foreignObject" c7img2 = false ∧
      (img2imageFallback c7img).attr "viewBox" = some "0 0 100% 100%" ∧
      (img2svgFallback c7img2).attr "iftool-background" = some "u2" :=
  ⟨by decide, by decide, by decide,
    (claim7_probe_fallback (fun _ => none) "div" c7img NodeList.nil
      "foreignObject" c7img2 NodeList.nil
      (by decide) rfl (by decide) rfl).2.2.1,
    (claim7_probe_fallback (fun _ => none) "div" c7img NodeList.nil
      "foreignObject" c7img2 NodeList.nil
      (by decide) rfl (by decide) rfl).2.2.2.2.2.2.2.1⟩


theorem isPrefixOf_append_self (p l : List Char) :
    List.isPrefixOf p (p ++ l) = true := by
  induction p with
  | nil => simp [List.isPrefixOf]
  | cons c t ih =>
    show (c == c && List.isPrefixOf t (t ++ l)) = true
    rw [ih]
    simp

theorem isPrefixOf_refl (p : List Char) : List.isPrefixOf p p = true := by
  have := isPrefixOf_append_self p []
  rwa [List.append_nil] at this

theorem findSub_isSome (pat l1 : List Char) (hp : pat ≠ []) :
    (findSub pat (l1 ++ pat)).isSome = true := by
  induction l1 with
  | nil =>
    cases pat with
    | nil => exact absurd rfl hp
    | cons c pt =>
      show (if List.isPrefixOf (c :: pt) (c :: pt)
          then some (([] : List Char), (c :: pt).drop (c :: pt).length)
          else (findSub (c :: pt) pt).map
            (fun pr => (c :: pr.1, pr.2))).isSome = true
      rw [isPrefixOf_refl]
      simp
  | cons c t ih =>
    show (if List.isPrefixOf pat (c :: (t ++ pat))
        then some ([], (c :: (t ++ pat)).drop pat.length)
        else (findSub pat (t ++ pat)).map (fun pr => (c :: pr.1, pr.2))).isSome = true
    by_cases h : List.isPrefixOf pat (c :: (t ++ pat)) = true
    · rw [h]
      simp
    · rw [Bool.not_eq_true] at h
      rw [h]
      simp only [Bool.false_eq_true, if_false]
      simpa using ih

theorem unwrapGo_isSome (mid : List Char) :
    (unwrapGo ("<div id=\"iftool\">".data ++ (mid ++ "</div>".data))).isSome
      = true := by
  have hpre : List.isPrefixOf ("<div id=\"iftool\">".data)
      ('<' :: ("div id=\"iftool\">".data ++ (mid ++ "</div>".data))) = true := by
    show (('<' == '<') && List.isPrefixOf ("div id=\"iftool\">".data)
        ("div id=\"iftool\">".data ++ (mid ++ "</div>".data))) = true
    rw [isPrefixOf_append_self]
    simp
  have hdrop : ('<' :: ("div id=\"iftool\">".data ++ (mid ++ "</div>".data))).drop 17
      = mid ++ "</div>".data := by
    show ("div id=\"iftool\">".data ++ (mid ++ "</div>".data)).drop 16
      = mid ++ "</div>".data
    have h16 : ("div id=\"iftool\">".data).length = 16 := by decide
    rw [← h16, List.drop_left]
  have hfs : (findSub ("</div>".data) (mid ++ "</div>".data)).isSome = true :=
    findSub_isSome _ _ (by decide)
  obtain ⟨pr, hpr⟩ := Option.isSome_iff_exists.mp hfs
  show (if List.isPrefixOf ("<div id=\"iftool\">".data)
      ('<' :: ("div id=\"iftool\">".data ++ (mid ++ "</div>".data))) then
      match findSub ("</div>".data)
          (('<' :: ("div id=\"iftool\">".data ++ (mid ++ "</div>".data))).drop 17) with
      | some pr => some pr.1
      | none => unwrapGo ("div id=\"iftool\">".data ++ (mid ++ "</div>".data))
    else unwrapGo ("div id=\"iftool\">".data ++ (mid ++ "</div>".data))).isSome = true
  rw [hpre, hdrop, hpr]
  simp

theorem serialize_root_shape (a : Node) (b : NodeList) :
    serializeNode (composeDom (Node.element "div" [("id", "iftool")]
        (NodeList.cons a b)))
      = "<div id=\"iftool\">".data ++
          (serializeList (composeList (NodeList.cons a b)) ++ "</div>".data) := by
  show '<' :: ("div".data ++ serializeAttrs [("id", "iftool")] ++
      ('>' :: (serializeList (composeList (NodeList.cons a b)) ++
        "</".data ++ "div".data ++ ['>'])))
    = "<div id=\"iftool\">".data ++
        (serializeList (composeList (NodeList.cons a b)) ++ "</div>".data)
  simp only [List.append_assoc]
  rfl

/-- C10: the unstated precondition of `compose` must require not just the
`div#iftool` root shape but also at least one child: for every such root
with a non-empty children list, the serialization opens with the literal
wrapper and closes with `</div>`, the unwrap regex matches, and `compose`
returns markup instead of throwing. -/
theorem claim10_amended (a : Node) (b : NodeList) :
    ∃ s, compose (Node.element "div" [("id", "iftool")] (NodeList.cons a b))
      = some s := by
  have hui := unwrapGo_isSome (serializeList (composeList (NodeList.cons a b)))
  obtain ⟨mid, hmid⟩ := Option.isSome_iff_exists.mp hui
  refine ⟨fixCloseTags (String.mk (ampRestore mid)), ?_⟩
  show (match unwrapGo (serializeNode (composeDom (Node.element "div"
      [("id", "iftool")] (NodeList.cons a b)))) with
    | none => none
    | some m => some (fixCloseTags (String.mk (ampRestore m))))
      = some (fixCloseTags (String.mk (ampRestore mid)))
  rw [serialize_root_shape, hmid]

/-- C10 counterexample: the failing branch of `compose` is reachable even
on the exact root `parse` returns — for an empty document the childless
`div#iftool` serializes self-closed as `<div id="iftool"/>`, the wrapper
regex finds no match, and the `[1]` access throws a TypeError (modeled as
`none`); a tree without the wrapper fails the same way. -/
theorem claim10_counterexample :
    compose c10root = none ∧ compose c10section = none := by
  constructor
  · rfl
  · rfl

/-- C9 counterexample: the close-tag fix regex demands at least one
whitespace character after the tag name, so a listed tag the serializer
emitted self-closed *without attributes* stays self-closed: composing a
`div#iftool` root holding one empty attribute-less div yields `<div/>`,
not `<div></div>`, although `div` is on the fixed list. -/
theorem claim9_counterexample :
    compose (Node.element "div" [("id", "iftool")]
        (NodeList.cons (Node.element "div" [] NodeList.nil) NodeList.nil))
      = some "<div/>" ∧ "div" ∈ tagsToFixL := by
  constructor
  · decide
  · decide

theorem findSelfClose_exact (A : List Char) (hA : '>' ∉ A) (suf : List Char) :
    findSelfClose (A ++ '/' :: '>' :: suf) = some (A, suf) := by
  induction A with
  | nil => rfl
  | cons c A2 ih =>
    have hc : c ≠ '>' := fun he => hA (he ▸ List.mem_cons_self c A2)
    have hA2 : '>' ∉ A2 := fun hm => hA (List.mem_cons_of_mem c hm)
    show findSelfClose (c :: (A2 ++ '/' :: '>' :: suf)) = some (c :: A2, suf)
    unfold findSelfClose
    split
    · next rest heq =>
      exfalso
      rw [List.cons.injEq] at heq
      cases hA2eq : A2 with
      | nil =>
        rw [hA2eq] at heq
        have h2 := heq.2
        simp at h2
      | cons c2 A3 =>
        rw [hA2eq] at heq hA2
        have h2 := heq.2
        rw [List.cons_append, List.cons.injEq] at h2
        exact hA2 (by rw [h2.1]; exact List.mem_cons_self '>' A3)
    · next t heq =>
      exfalso
      rw [List.cons.injEq] at heq
      exact hc heq.1
    · next heq => exact absurd heq (by simp)
    · next c3 t3 h1 h2 h3 heq =>
      rw [List.cons.injEq] at heq
      rw [← heq.2, ih hA2]
      rw [heq.1]
      rfl

theorem findSelfClose_lt (l : List Char) :
    ∀ m r, findSelfClose l = some (m, r) → r.length < l.length := by
  induction l with
  | nil => intro m r h; simp [findSelfClose] at h
  | cons c t ih =>
    intro m r h
    unfold findSelfClose at h
    split at h
    · next rest heq =>
      rw [List.cons.injEq] at heq
      rw [Option.some.injEq, Prod.mk.injEq] at h
      rw [← h.2, heq.2]
      simp only [List.length_cons]
      omega
    · next t2 heq => simp at h
    · next heq => exact absurd heq (by simp)
    · next c3 t3 h1 h2 h3 heq =>
      rw [List.cons.injEq] at heq
      rw [Option.map_eq_some'] at h
      obtain ⟨⟨m2, r2⟩, hfs, hpr⟩ := h
      rw [Prod.mk.injEq] at hpr
      have hlt := ih m2 r2 (by rw [heq.2]; exact hfs)
      rw [← hpr.2]
      simp only [List.length_cons]
      omega

theorem matchCIKeep_self (l : List Char) (rest : List Char)
    (hlow : lowerC l = l) :
    matchCIKeep l (l ++ rest) = some (l, rest) := by
  induction l with
  | nil => rfl
  | cons c lt ih =>
    have hc : c.toLower = c := by
      have h1 : lowerC (c :: lt) = c :: lt := hlow
      rw [show lowerC (c :: lt) = c.toLower :: lowerC lt from rfl,
        List.cons.injEq] at h1
      exact h1.1
    have hlt : lowerC lt = lt := by
      have h1 : lowerC (c :: lt) = c :: lt := hlow
      rw [show lowerC (c :: lt) = c.toLower :: lowerC lt from rfl,
        List.cons.injEq] at h1
      exact h1.2
    show matchCIKeep (c :: lt) (c :: (lt ++ rest)) = some (c :: lt, rest)
    rw [show matchCIKeep (c :: lt) (c :: (lt ++ rest))
        = if c.toLower = c then
            (matchCIKeep lt (lt ++ rest)).map (fun pr => (c :: pr.1, pr.2))
          else none from rfl]
    rw [if_pos hc, ih hlt]
    rfl

theorem matchCIKeep_le (lit : List Char) :
    ∀ (cs o r2 : List Char), matchCIKeep lit cs = some (o, r2) →
      r2.length ≤ cs.length := by
  induction lit with
  | nil =>
    intro cs o r2 h
    rw [show matchCIKeep [] cs = some ([], cs) from rfl, Option.some.injEq,
      Prod.mk.injEq] at h
    rw [← h.2]
  | cons l lt ih =>
    intro cs o r2 h
    cases cs with
    | nil => simp [matchCIKeep] at h
    | cons c ct =>
      rw [show matchCIKeep (l :: lt) (c :: ct)
          = if c.toLower = l then
              (matchCIKeep lt ct).map (fun pr => (c :: pr.1, pr.2))
            else none from rfl] at h
      by_cases hc : c.toLower = l
      · rw [if_pos hc, Option.map_eq_some'] at h
        obtain ⟨⟨o2, r3⟩, hm, hpr⟩ := h
        rw [Prod.mk.injEq] at hpr
        have := ih ct o2 r3 hm
        rw [← hpr.2]
        simp only [List.length_cons]
        omega
      · rw [if_neg hc] at h
        simp at h

theorem foldl_orElse_some {α : Type} (l : List (Option α)) (v : α) :
    l.foldl (fun acc o => acc.orElse (fun _ => o)) (some v) = some v := by
  induction l with
  | nil => rfl
  | cons x t ih => exact ih

theorem foldl_orElse_none {α : Type} (l : List (Option α))
    (h : ∀ x ∈ l, x = none) :
    l.foldl (fun acc o => acc.orElse (fun _ => o)) none = none := by
  induction l with
  | nil => rfl
  | cons x t ih =>
    have hx : x = none := h x (List.mem_cons_self x t)
    show List.foldl _ (Option.orElse none (fun _ => x)) t = none
    rw [hx]
    exact ih (fun y hy => h y (List.mem_cons_of_mem x hy))

theorem foldl_orElse_eq_some {α : Type} (l : List (Option α)) (v : α)
    (h : l.foldl (fun acc o => acc.orElse (fun _ => o)) none = some v) :
    ∃ o ∈ l, o = some v := by
  induction l with
  | nil => simp at h
  | cons x t ih =>
    cases x with
    | some w =>
      rw [show List.foldl (fun acc o => acc.orElse (fun _ => o)) none (some w :: t)
          = List.foldl (fun acc o => acc.orElse (fun _ => o)) (some w) t from rfl,
        foldl_orElse_some] at h
      exact ⟨some w, List.mem_cons_self _ _, by rw [h]⟩
    | none =>
      rw [show List.foldl (fun acc o => acc.orElse (fun _ => o)) none (none :: t)
          = List.foldl (fun acc o => acc.orElse (fun _ => o)) none t from rfl] at h
      obtain ⟨o, ho, hov⟩ := ih h
      exact ⟨o, List.mem_cons_of_mem none ho, hov⟩

theorem tryFixAt_shrinks (cs out rest : List Char)
    (h : tryFixAt cs = some (out, rest)) : rest.length < cs.length := by
  unfold tryFixAt at h
  split at h
  · next r =>
    obtain ⟨o, ho, hov⟩ := foldl_orElse_eq_some _ _ h
    rw [List.mem_map] at ho
    obtain ⟨X, _, hfx⟩ := ho
    rw [← hfx] at hov
    split at hov
    · next orig r2 heq2 =>
      split at hov
      · next c2 tail =>
        split at hov
        · next hws =>
          split at hov
          · next mid rest2 heq4 =>
            rw [Option.some.injEq, Prod.mk.injEq] at hov
            have hlt := findSelfClose_lt _ mid rest2 heq4
            have hle := matchCIKeep_le X.data r orig _ heq2
            rw [← hov.2]
            simp only [List.length_cons] at hlt hle ⊢
            omega
          · next heq4 => exact absurd hov (by simp)
        · next hws => exact absurd hov (by simp)
      · next heq3 => exact absurd hov (by simp)
    · next heq2 => exact absurd hov (by simp)
  · next heq => exact absurd h (by simp)

theorem fixGo_fuel (n : Nat) :
    ∀ (x : List Char), x.length ≤ n → ∀ f1 f2, x.length ≤ f1 →
      x.length ≤ f2 → fixGo f1 x = fixGo f2 x := by
  induction n with
  | zero =>
    intro x hx f1 f2 h1 h2
    have hxe : x = [] := List.eq_nil_of_length_eq_zero (Nat.le_zero.mp hx)
    subst hxe
    cases f1 with
    | zero =>
      cases f2 with
      | zero => rfl
      | succ b => rfl
    | succ a =>
      cases f2 with
      | zero => rfl
      | succ b => rfl
  | succ k ih =>
    intro x hx f1 f2 h1 h2
    cases x with
    | nil =>
      cases f1 with
      | zero =>
        cases f2 with
        | zero => rfl
        | succ b => rfl
      | succ a =>
        cases f2 with
        | zero => rfl
        | succ b => rfl
    | cons c t =>
      cases f1 with
      | zero => exact absurd h1 (by simp)
      | succ a =>
        cases f2 with
        | zero => exact absurd h2 (by simp)
        | succ b =>
          show (match tryFixAt (c :: t) with
            | some (out, rest) => out ++ fixGo a rest
            | none => match (c :: t : List Char) with
              | [] => []
              | c :: t => c :: fixGo a t)
            = (match tryFixAt (c :: t) with
            | some (out, rest) => out ++ fixGo b rest
            | none => match (c :: t : List Char) with
              | [] => []
              | c :: t => c :: fixGo b t)
          cases htf : tryFixAt (c :: t) with
          | some pr =>
            obtain ⟨out, rest⟩ := pr
            show out ++ fixGo a rest = out ++ fixGo b rest
            have hlt := tryFixAt_shrinks (c :: t) out rest htf
            have hrk : rest.length ≤ k := by
              simp only [List.length_cons] at hlt hx
              omega
            rw [ih rest hrk a b (by omega) (by omega)]
          | none =>
            show c :: fixGo a t = c :: fixGo b t
            have htk : t.length ≤ k := by
              simp only [List.length_cons] at hx
              omega
            rw [ih t htk a b (by simp only [List.length_cons] at h1; omega)
              (by simp only [List.length_cons] at h2; omega)]

theorem fixCloseTags_head (x out suf : List Char)
    (h1 : tryFixAt x = some (out, suf)) :
    fixCloseTags (String.mk x) = String.mk (out ++ fixGo suf.length suf) := by
  have hlt := tryFixAt_shrinks x out suf h1
  cases x with
  | nil => exact absurd h1 (by simp [tryFixAt])
  | cons c t =>
    show String.mk (fixGo (c :: t).length (c :: t)) = _
    rw [show (c : Char) :: t = (c :: t : List Char) from rfl]
    rw [show ((c : Char) :: t).length = t.length + 1 from rfl]
    rw [show fixGo (t.length + 1) (c :: t)
        = (match tryFixAt (c :: t) with
          | some (out, rest) => out ++ fixGo t.length rest
          | none => match (c :: t : List Char) with
            | [] => []
            | c :: t => c :: fixGo t.length t) from rfl]
    rw [h1]
    show String.mk (out ++ fixGo t.length suf) = String.mk (out ++ fixGo suf.length suf)
    simp only [List.length_cons] at hlt
    rw [fixGo_fuel suf.length suf (by omega) t.length suf.length (by omega)
      (by omega)]

theorem tryFixAt_spec (tag : String) (pre post : List String)
    (w : Char) (A suf : List Char)
    (hsplit : tagsToFixL = pre ++ tag :: post)
    (hlow : lowerC tag.data = tag.data)
    (hw : jsWs w = true)
    (hA2 : '>' ∉ (w :: A))
    (hpre : ∀ X ∈ pre,
      matchCIKeep X.data (tag.data ++ (w :: (A ++ ('/' :: '>' :: suf)))) = none) :
    tryFixAt ('<' :: (tag.data ++ (w :: (A ++ ('/' :: '>' :: suf)))))
      = some ('<' :: (tag.data ++ (w :: A) ++ '>' :: '<' :: '/' :: tag.data
          ++ ['>']), suf) := by
  have hco : (fun tg : String =>
      match matchCIKeep tg.data (tag.data ++ (w :: (A ++ ('/' :: '>' :: suf)))) with
      | some (orig, r2) =>
        match r2 with
        | c2 :: _ =>
          if jsWs c2 then
            match findSelfClose r2 with
            | some (mid, rest2) =>
              some ('<' :: (orig ++ mid ++ '>' :: '<' :: '/' :: orig ++ ['>']),
                rest2)
            | none => none
          else none
        | [] => none
      | none => none) tag
      = some ('<' :: (tag.data ++ (w :: A) ++ '>' :: '<' :: '/' :: tag.data
          ++ ['>']), suf) := by
    show (match matchCIKeep tag.data (tag.data ++ (w :: (A ++ ('/' :: '>' :: suf)))) with
      | some (orig, r2) =>
        match r2 with
        | c2 :: _ =>
          if jsWs c2 then
            match findSelfClose r2 with
            | some (mid, rest2) =>
              some ('<' :: (orig ++ mid ++ '>' :: '<' :: '/' :: orig ++ ['>']),
                rest2)
            | none => none
          else none
        | [] => none
      | none => none)
      = some ('<' :: (tag.data ++ (w :: A) ++ '>' :: '<' :: '/' :: tag.data
          ++ ['>']), suf)
    rw [matchCIKeep_self tag.data (w :: (A ++ ('/' :: '>' :: suf))) hlow]
    show (if jsWs w then
        match findSelfClose (w :: (A ++ ('/' :: '>' :: suf))) with
        | some (mid, rest2) =>
          some ('<' :: (tag.data ++ mid ++ '>' :: '<' :: '/' :: tag.data
              ++ ['>']), rest2)
        | none => none
      else none)
      = some ('<' :: (tag.data ++ (w :: A) ++ '>' :: '<' :: '/' :: tag.data
          ++ ['>']), suf)
    rw [if_pos hw,
      show (w :: (A ++ ('/' :: '>' :: suf)) : List Char)
        = (w :: A) ++ '/' :: '>' :: suf from rfl,
      findSelfClose_exact (w :: A) hA2 suf]
  have hzero : List.foldl (fun acc o => acc.orElse (fun _ => o)) none
      (List.map (fun tg : String =>
      match matchCIKeep tg.data (tag.data ++ (w :: (A ++ ('/' :: '>' :: suf)))) with
      | some (orig, r2) =>
        match r2 with
        | c2 :: _ =>
          if jsWs c2 then
            match findSelfClose r2 with
            | some (mid, rest2) =>
              some ('<' :: (orig ++ mid ++ '>' :: '<' :: '/' :: orig ++ ['>']),
                rest2)
            | none => none
          else none
        | [] => none
      | none => none) pre) = none := by
    apply foldl_orElse_none
    intro x hx
    obtain ⟨X, hXm, hfX⟩ := List.mem_map.mp hx
    rw [← hfX]
    show (match matchCIKeep X.data (tag.data ++ (w :: (A ++ ('/' :: '>' :: suf)))) with
      | some (orig, r2) =>
        match r2 with
        | c2 :: _ =>
          if jsWs c2 then
            match findSelfClose r2 with
            | some (mid, rest2) =>
              some ('<' :: (orig ++ mid ++ '>' :: '<' :: '/' :: orig ++ ['>']),
                rest2)
            | none => none
          else none
        | [] => none
      | none => none) = none
    rw [hpre X hXm]
  show List.foldl (fun acc o => acc.orElse (fun _ => o)) none
      (List.map (fun tg : String =>
      match matchCIKeep tg.data (tag.data ++ (w :: (A ++ ('/' :: '>' :: suf)))) with
      | some (orig, r2) =>
        match r2 with
        | c2 :: _ =>
          if jsWs c2 then
            match findSelfClose r2 with
            | some (mid, rest2) =>
              some ('<' :: (orig ++ mid ++ '>' :: '<' :: '/' :: orig ++ ['>']),
                rest2)
            | none => none
          else none
        | [] => none
      | none => none) tagsToFixL)
      = some ('<' :: (tag.data ++ (w :: A) ++ '>' :: '<' :: '/' :: tag.data
          ++ ['>']), suf)
  rw [hsplit, List.map_append, List.map_cons, List.foldl_append, hzero]
  show List.foldl (fun acc o => acc.orElse (fun _ => o))
      ((fun tg : String =>
      match matchCIKeep tg.data (tag.data ++ (w :: (A ++ ('/' :: '>' :: suf)))) with
      | some (orig, r2) =>
        match r2 with
        | c2 :: _ =>
          if jsWs c2 then
            match findSelfClose r2 with
            | some (mid, rest2) =>
              some ('<' :: (orig ++ mid ++ '>' :: '<' :: '/' :: orig ++ ['>']),
                rest2)
            | none => none
          else none
        | [] => none
      | none => none) tag)
      (List.map (fun tg : String =>
      match matchCIKeep tg.data (tag.data ++ (w :: (A ++ ('/' :: '>' :: suf)))) with
      | some (orig, r2) =>
        match r2 with
        | c2 :: _ =>
          if jsWs c2 then
            match findSelfClose r2 with
            | some (mid, rest2) =>
              some ('<' :: (orig ++ mid ++ '>' :: '<' :: '/' :: orig ++ ['>']),
                rest2)
            | none => none
          else none
        | [] => none
      | none => none) post)
      = some ('<' :: (tag.data ++ (w :: A) ++ '>' :: '<' :: '/' :: tag.data
          ++ ['>']), suf)
  rw [hco]
  exact foldl_orElse_some _ _

/-- C9: for every tag on the fixed list, every self-closed occurrence
`<tag attrs/>` whose attribute text starts with a whitespace character and
contains no `>` is expanded in place into `<tag attrs></tag>` whatever the
suffix that follows it, both at the head of the scan and through the whole
`fixCloseTags` pass; a position where the fix does not apply is copied
verbatim and the scan continues; an attribute-less self-closed occurrence
is left unchanged because the pattern demands whitespace after the tag
name; and when an attribute value itself contains `/>` the lazy pattern
splices mid-value: `<div data-x="a/>b"/>` becomes
`<div data-x="a></div>b"/>`. -/
theorem claim9_amended (tag : String) (htag : tag ∈ tagsToFixL)
    (w : Char) (hw : jsWs w = true) (A : List Char) (hA : '>' ∉ A) :
    (∀ suf : List Char,
        tryFixAt ('<' :: (tag.data ++ (w :: (A ++ ('/' :: '>' :: suf)))))
          = some ('<' :: (tag.data ++ (w :: A) ++ '>' :: '<' :: '/' :: tag.data
              ++ ['>']), suf))
    ∧ (∀ suf : List Char,
        fixCloseTags (String.mk
            ('<' :: (tag.data ++ (w :: (A ++ ('/' :: '>' :: suf))))))
          = String.mk (('<' :: (tag.data ++ (w :: A) ++ '>' :: '<' :: '/'
              :: tag.data ++ ['>'])) ++ fixGo suf.length suf))
    ∧ (∀ (n : Nat) (c : Char) (t : List Char), tryFixAt (c :: t) = none →
        fixGo (n + 1) (c :: t) = c :: fixGo n t)
    ∧ (∀ suf : List Char,
        tryFixAt ('<' :: (tag.data ++ ('/' :: '>' :: suf))) = none)
    ∧ fixCloseTags (String.mk ('<' :: (tag.data ++ ['/', '>'])))
        = String.mk ('<' :: (tag.data ++ ['/', '>']))
    ∧ fixCloseTags "<div data-x=\"a/>b\"/>" = "<div data-x=\"a></div>b\"/>" := by
  have hA2 : '>' ∉ (w :: A) := by
    intro hm
    cases hm with
    | head => exact absurd hw (by decide)
    | tail _ h => exact hA h
  have h1 : ∀ suf : List Char,
      tryFixAt ('<' :: (tag.data ++ (w :: (A ++ ('/' :: '>' :: suf)))))
        = some ('<' :: (tag.data ++ (w :: A) ++ '>' :: '<' :: '/' :: tag.data
            ++ ['>']), suf) := by
    intro suf
    have h := htag
    simp only [tagsToFixL, List.mem_cons, List.not_mem_nil, or_false] at h
    rcases h with rfl | rfl | rfl | rfl | rfl | rfl | rfl | rfl | rfl | rfl | rfl | rfl | rfl | rfl
    · exact tryFixAt_spec "section" [] ["p", "div", "svg", "iframe", "video", "mp-common-clmusic", "mp-common-redpacket", "mp-common-profile", "mp-common-videosnap", "mp-common-mpaudio", "mp-common-poi", "mp-common-miniprogram", "mp-common-vote"]
        w A suf rfl (by decide) hw hA2
        (by intro X hX; fin_cases hX)
    · exact tryFixAt_spec "p" ["section"] ["div", "svg", "iframe", "video", "mp-common-clmusic", "mp-common-redpacket", "mp-common-profile", "mp-common-videosnap", "mp-common-mpaudio", "mp-common-poi", "mp-common-miniprogram", "mp-common-vote"]
        w A suf rfl (by decide) hw hA2
        (by intro X hX; fin_cases hX; rfl)
    · exact tryFixAt_spec "div" ["section", "p"] ["svg", "iframe", "video", "mp-common-clmusic", "mp-common-redpacket", "mp-common-profile", "mp-common-videosnap", "mp-common-mpaudio", "mp-common-poi", "mp-common-miniprogram", "mp-common-vote"]
        w A suf rfl (by decide) hw hA2
        (by intro X hX; fin_cases hX <;> rfl)
    · exact tryFixAt_spec "svg" ["section", "p", "div"] ["iframe", "video", "mp-common-clmusic", "mp-common-redpacket", "mp-common-profile", "mp-common-videosnap", "mp-common-mpaudio", "mp-common-poi", "mp-common-miniprogram", "mp-common-vote"]
        w A suf rfl (by decide) hw hA2
        (by intro X hX; fin_cases hX <;> rfl)
    · exact tryFixAt_spec "iframe" ["section", "p", "div", "svg"] ["video", "mp-common-clmusic", "mp-common-redpacket", "mp-common-profile", "mp-common-videosnap", "mp-common-mpaudio", "mp-common-poi", "mp-common-miniprogram", "mp-common-vote"]
        w A suf rfl (by decide) hw hA2
        (by intro X hX; fin_cases hX <;> rfl)
    · exact tryFixAt_spec "video" ["section", "p", "div", "svg", "iframe"] ["mp-common-clmusic", "mp-common-redpacket", "mp-common-profile", "mp-common-videosnap", "mp-common-mpaudio", "mp-common-poi", "mp-common-miniprogram", "mp-common-vote"]
        w A suf rfl (by decide) hw hA2
        (by intro X hX; fin_cases hX <;> rfl)
    · exact tryFixAt_spec "mp-common-clmusic" ["section", "p", "div", "svg", "iframe", "video"] ["mp-common-redpacket", "mp-common-profile", "mp-common-videosnap", "mp-common-mpaudio", "mp-common-poi", "mp-common-miniprogram", "mp-common-vote"]
        w A suf rfl (by decide) hw hA2
        (by intro X hX; fin_cases hX <;> rfl)
    · exact tryFixAt_spec "mp-common-redpacket" ["section", "p", "div", "svg", "iframe", "video", "mp-common-clmusic"] ["mp-common-profile", "mp-common-videosnap", "mp-common-mpaudio", "mp-common-poi", "mp-common-miniprogram", "mp-common-vote"]
        w A suf rfl (by decide) hw hA2
        (by intro X hX; fin_cases hX <;> rfl)
    · exact tryFixAt_spec "mp-common-profile" ["section", "p", "div", "svg", "iframe", "video", "mp-common-clmusic", "mp-common-redpacket"] ["mp-common-videosnap", "mp-common-mpaudio", "mp-common-poi", "mp-common-miniprogram", "mp-common-vote"]
        w A suf rfl (by decide) hw hA2
        (by intro X hX; fin_cases hX <;> rfl)
    · exact tryFixAt_spec "mp-common-videosnap" ["section", "p", "div", "svg", "iframe", "video", "mp-common-clmusic", "mp-common-redpacket", "mp-common-profile"] ["mp-common-mpaudio", "mp-common-poi", "mp-common-miniprogram", "mp-common-vote"]
        w A suf rfl (by decide) hw hA2
        (by intro X hX; fin_cases hX <;> rfl)
    · exact tryFixAt_spec "mp-common-mpaudio" ["section", "p", "div", "svg", "iframe", "video", "mp-common-clmusic", "mp-common-redpacket", "mp-common-profile", "mp-common-videosnap"] ["mp-common-poi", "mp-common-miniprogram", "mp-common-vote"]
        w A suf rfl (by decide) hw hA2
        (by intro X hX; fin_cases hX <;> rfl)
    · exact tryFixAt_spec "mp-common-poi" ["section", "p", "div", "svg", "iframe", "video", "mp-common-clmusic", "mp-common-redpacket", "mp-common-profile", "mp-common-videosnap", "mp-common-mpaudio"] ["mp-common-miniprogram", "mp-common-vote"]
        w A suf rfl (by decide) hw hA2
        (by intro X hX; fin_cases hX <;> rfl)
    · exact tryFixAt_spec "mp-common-miniprogram" ["section", "p", "div", "svg", "iframe", "video", "mp-common-clmusic", "mp-common-redpacket", "mp-common-profile", "mp-common-videosnap", "mp-common-mpaudio", "mp-common-poi"] ["mp-common-vote"]
        w A suf rfl (by decide) hw hA2
        (by intro X hX; fin_cases hX <;> rfl)
    · exact tryFixAt_spec "mp-common-vote" ["section", "p", "div", "svg", "iframe", "video", "mp-common-clmusic", "mp-common-redpacket", "mp-common-profile", "mp-common-videosnap", "mp-common-mpaudio", "mp-common-poi", "mp-common-miniprogram"] []
        w A suf rfl (by decide) hw hA2
        (by intro X hX; fin_cases hX <;> rfl)
  refine ⟨h1, fun suf => fixCloseTags_head _ _ _ (h1 suf), ?_, ?_, ?_, by decide⟩
  · intro n c t h
    show (match tryFixAt (c :: t) with
      | some (out, rest) => out ++ fixGo n rest
      | none => match c :: t with
        | [] => ([] : List Char)
        | c2 :: t2 => c2 :: fixGo n t2) = c :: fixGo n t
    rw [h]
  · intro suf
    have h := htag
    simp only [tagsToFixL, List.mem_cons, List.not_mem_nil, or_false] at h
    rcases h with rfl | rfl | rfl | rfl | rfl | rfl | rfl | rfl | rfl | rfl | rfl | rfl | rfl | rfl <;> rfl
  · have h := htag
    simp only [tagsToFixL, List.mem_cons, List.not_mem_nil, or_false] at h
    rcases h with rfl | rfl | rfl | rfl | rfl | rfl | rfl | rfl | rfl | rfl | rfl | rfl | rfl | rfl <;> rfl

/-- C9 witness: the close-tag fix at tag `div` with attribute text `a="1"`
and empty suffix. -/
theorem claim9_amended_witness :
    "div" ∈ tagsToFixL ∧ jsWs ' ' = true ∧ '>' ∉ ['a', '=', '"', '1', '"'] ∧
      fixCloseTags (String.mk
          ('<' :: ("div".data ++ (' ' :: (['a', '=', '"', '1', '"']
            ++ ('/' :: '>' :: ([] : List Char)))))))
        = String.mk (('<' :: ("div".data ++ (' ' :: ['a', '=', '"', '1', '"'])
            ++ '>' :: '<' :: '/' :: "div".data ++ ['>']))
            ++ fixGo ([] : List Char).length []) :=
  ⟨by decide, by decide, by decide,
    (claim9_amended "div" (by decide) ' ' (by decide) ['a', '=', '"', '1', '"']
        (by decide)).2.1 []⟩



theorem jsSplitC_cons_eq (sep c : Char) (t : List Char) :
    jsSplitC sep (c :: t)
      = if c = sep then [] :: jsSplitC sep t
        else match jsSplitC sep t with
          | h :: r => (c :: h) :: r
          | [] => [[c]] := rfl

theorem jsSplitC_ne_nil (sep : Char) (l : List Char) : jsSplitC sep l ≠ [] := by
  cases l with
  | nil => simp [jsSplitC]
  | cons c t =>
    rw [jsSplitC_cons_eq]
    by_cases h : c = sep
    · simp [h]
    · rw [if_neg h]
      cases hs : jsSplitC sep t with
      | nil => simp
      | cons x r => simp

theorem split_append_sep (sep : Char) (a b : List Char) :
    jsSplitC sep (a ++ sep :: b) = jsSplitC sep a ++ jsSplitC sep b := by
  induction a with
  | nil =>
    show jsSplitC sep (sep :: b) = jsSplitC sep ([] : List Char) ++ jsSplitC sep b
    rw [jsSplitC_cons_eq, if_pos rfl]
    rfl
  | cons c t ih =>
    show jsSplitC sep (c :: (t ++ sep :: b)) = jsSplitC sep (c :: t) ++ jsSplitC sep b
    rw [jsSplitC_cons_eq, jsSplitC_cons_eq]
    by_cases h : c = sep
    · rw [if_pos h, if_pos h, ih]
      rfl
    · rw [if_neg h, if_neg h, ih]
      cases hs : jsSplitC sep t with
      | nil => exact absurd hs (jsSplitC_ne_nil sep t)
      | cons x r => rfl

theorem split_sepFree (sep : Char) (l : List Char) (h : sep ∉ l) :
    jsSplitC sep l = [l] := by
  induction l with
  | nil => rfl
  | cons c t ih =>
    have hc : ¬(c = sep) := fun he => h (he ▸ List.mem_cons_self c t)
    have ht : sep ∉ t := fun hm => h (List.mem_cons_of_mem c hm)
    rw [jsSplitC_cons_eq, if_neg hc, ih ht]

theorem split_prepend_sepFree (sep : Char) (p x hd : List Char)
    (r : List (List Char)) (hx : jsSplitC sep x = hd :: r) (hp : sep ∉ p) :
    jsSplitC sep (p ++ x) = (p ++ hd) :: r := by
  induction p with
  | nil => simpa using hx
  | cons c t ih =>
    have hc : ¬(c = sep) := fun he => hp (he ▸ List.mem_cons_self c t)
    have ht : sep ∉ t := fun hm => hp (List.mem_cons_of_mem c hm)
    show jsSplitC sep (c :: (t ++ x)) = ((c :: t) ++ hd) :: r
    rw [jsSplitC_cons_eq, if_neg hc, ih ht]
    rfl

theorem split_append_sepFree_tail (sep : Char) (x w : List Char) (hw : sep ∉ w) :
    jsSplitC sep (x ++ w) = modLast (· ++ w) (jsSplitC sep x) := by
  induction x with
  | nil =>
    show jsSplitC sep w = modLast (· ++ w) [[]]
    rw [split_sepFree sep w hw]
    rfl
  | cons c t ih =>
    show jsSplitC sep (c :: (t ++ w)) = modLast (· ++ w) (jsSplitC sep (c :: t))
    rw [jsSplitC_cons_eq, jsSplitC_cons_eq]
    by_cases h : c = sep
    · rw [if_pos h, if_pos h, ih]
      cases hs : jsSplitC sep t with
      | nil => exact absurd hs (jsSplitC_ne_nil sep t)
      | cons y r => rfl
    · rw [if_neg h, if_neg h, ih]
      cases hs : jsSplitC sep t with
      | nil => exact absurd hs (jsSplitC_ne_nil sep t)
      | cons y r =>
        cases r with
        | nil => rfl
        | cons z r2 => rfl

theorem mem_split_sepFree (sep : Char) (l d : List Char)
    (hd : d ∈ jsSplitC sep l) : sep ∉ d := by
  induction l generalizing d with
  | nil =>
    have : d = [] := by simpa [jsSplitC] using hd
    simp [this]
  | cons c t ih =>
    rw [jsSplitC_cons_eq] at hd
    by_cases h : c = sep
    · rw [if_pos h] at hd
      cases hd with
      | head => simp
      | tail _ hm => exact ih d hm
    · rw [if_neg h] at hd
      cases hs : jsSplitC sep t with
      | nil => exact absurd hs (jsSplitC_ne_nil sep t)
      | cons y r =>
        rw [hs] at hd
        cases hd with
        | head =>
          intro hm
          cases hm with
          | head => exact h rfl
          | tail _ hm2 =>
            exact ih y (by rw [hs]; exact List.mem_cons_self y r) hm2
        | tail _ hm =>
          exact ih d (by rw [hs]; exact List.mem_cons_of_mem y hm)

-- ── trim-layer lemmas ──────────────────────────────────────────────

theorem trimR_cons_eq (c : Char) (t : List Char) :
    trimR (c :: t) = match trimR t with
      | [] => if jsWs c then [] else [c]
      | r => c :: r := rfl

theorem allWs_trimR_nil (t : List Char) (h : t.all jsWs = true) : trimR t = [] := by
  induction t with
  | nil => rfl
  | cons c t ih =>
    rw [List.all_cons, Bool.and_eq_true] at h
    rw [trimR_cons_eq, ih h.2]
    simp [h.1]

theorem trimR_eq_nil (t : List Char) (h : trimR t = []) : t.all jsWs = true := by
  induction t with
  | nil => rfl
  | cons c t ih =>
    rw [trimR_cons_eq] at h
    cases hr : trimR t with
    | nil =>
      rw [hr] at h
      by_cases hc : jsWs c = true
      · simp [List.all_cons, hc, ih hr]
      · simp only [Bool.not_eq_true] at hc
        simp [hc] at h
    | cons y r =>
      rw [hr] at h
      simp at h

theorem trimR_append_allWs (x w : List Char) (hw : w.all jsWs = true) :
    trimR (x ++ w) = trimR x := by
  induction x with
  | nil => exact allWs_trimR_nil w hw
  | cons c t ih =>
    show trimR (c :: (t ++ w)) = trimR (c :: t)
    rw [trimR_cons_eq, trimR_cons_eq, ih]

theorem trimR_decomp (l : List Char) :
    ∃ w, l = trimR l ++ w ∧ w.all jsWs = true := by
  induction l with
  | nil => exact ⟨[], rfl, rfl⟩
  | cons c t ih =>
    obtain ⟨w, hw, hall⟩ := ih
    rw [trimR_cons_eq]
    cases hr : trimR t with
    | nil =>
      by_cases hc : jsWs c = true
      · refine ⟨c :: t, by simp [hc], ?_⟩
        rw [hr] at hw
        simp only [List.nil_append] at hw
        rw [List.all_cons, hc]
        rw [← hw] at hall
        simpa using hall
      · simp only [Bool.not_eq_true] at hc
        exact ⟨t, by simp [hc], trimR_eq_nil t hr⟩
    | cons y r =>
      refine ⟨w, ?_, hall⟩
      rw [hr] at hw
      show c :: t = c :: (y :: r) ++ w
      rw [List.cons_append, ← hw]

theorem trimL_cons_not {c : Char} (t : List Char) (hc : jsWs c = false) :
    trimL (c :: t) = c :: t := by
  simp [trimL, List.dropWhile_cons, hc]

theorem trimL_idem (l : List Char) : trimL (trimL l) = trimL l := by
  induction l with
  | nil => rfl
  | cons c t ih =>
    by_cases hc : jsWs c = true
    · rw [show trimL (c :: t) = trimL t from by
        simp [trimL, List.dropWhile_cons, hc]]
      exact ih
    · have hc' : jsWs c = false := by simpa using hc
      have h0 := trimL_cons_not t hc'
      rw [h0]
      exact h0

theorem trimL_append_allWs (w x : List Char) (hw : w.all jsWs = true) :
    trimL (w ++ x) = trimL x := by
  induction w with
  | nil => rfl
  | cons c t ih =>
    rw [List.all_cons, Bool.and_eq_true] at hw
    show trimL (c :: (t ++ x)) = trimL x
    rw [show trimL (c :: (t ++ x)) = trimL (t ++ x) from by
      simp [trimL, List.dropWhile_cons, hw.1]]
    exact ih hw.2

theorem trimB_append_allWs_left (w x : List Char) (hw : w.all jsWs = true) :
    trimB (w ++ x) = trimB x := by
  show trimR (trimL (w ++ x)) = trimR (trimL x)
  rw [trimL_append_allWs w x hw]

theorem trimB_append_allWs_right (x w : List Char) (hw : w.all jsWs = true) :
    trimB (x ++ w) = trimB x := by
  show trimR (List.dropWhile jsWs (x ++ w)) = trimR (List.dropWhile jsWs x)
  rw [List.dropWhile_append]
  by_cases h : (List.dropWhile jsWs x).isEmpty = true
  · rw [if_pos h]
    have h1 : List.dropWhile jsWs w = [] := by
      rw [List.dropWhile_eq_nil_iff]
      intro y hy
      rw [List.all_eq_true] at hw
      exact hw y hy
    have h2 : List.dropWhile jsWs x = [] := by
      cases hx : List.dropWhile jsWs x with
      | nil => rfl
      | cons a b => rw [hx] at h; simp at h
    rw [h1, h2]
  · rw [if_neg h]
    exact trimR_append_allWs _ w hw

theorem trimL_trimR_of (y : List Char) (hy : trimL y = y) :
    trimL (trimR y) = trimR y := by
  cases y with
  | nil => rfl
  | cons c t =>
    have hc : jsWs c = false := by
      by_contra hcc
      rw [Bool.not_eq_false] at hcc
      have h1 : trimL (c :: t) = trimL t := by
        simp [trimL, List.dropWhile_cons, hcc]
      rw [h1] at hy
      have hlen := congrArg List.length hy
      have hle : (List.dropWhile jsWs t).length ≤ t.length :=
        (List.dropWhile_sublist jsWs).length_le
      simp only [trimL, List.length_cons] at hlen
      omega
    rw [trimR_cons_eq]
    cases hr : trimR t with
    | nil =>
      simp only [hc, Bool.false_eq_true, if_false]
      exact trimL_cons_not _ hc
    | cons y2 r => exact trimL_cons_not _ hc

theorem trimR_idem (l : List Char) : trimR (trimR l) = trimR l := by
  induction l with
  | nil => rfl
  | cons c t ih =>
    rw [trimR_cons_eq]
    cases hr : trimR t with
    | nil =>
      by_cases hc : jsWs c = true
      · rw [if_pos hc]
        rfl
      · rw [if_neg hc, trimR_cons_eq]
        show (if jsWs c then [] else [c]) = [c]
        rw [if_neg hc]
    | cons y r =>
      rw [hr] at ih
      show trimR (c :: (y :: r)) = c :: (y :: r)
      rw [trimR_cons_eq, ih]

theorem trimB_idem (x : List Char) : trimB (trimB x) = trimB x := by
  have h2 : trimL (trimR (trimL x)) = trimR (trimL x) :=
    trimL_trimR_of _ (trimL_idem x)
  show trimR (trimL (trimR (trimL x))) = trimR (trimL x)
  rw [h2, trimR_idem]

-- ── split/trim interaction ─────────────────────────────────────────

theorem mapTrimB_split_trimL (l : List Char) :
    (jsSplitC ';' (trimL l)).map trimB = (jsSplitC ';' l).map trimB := by
  have hdec : l = l.takeWhile jsWs ++ trimL l :=
    (List.takeWhile_append_dropWhile jsWs l).symm
  have hall : (l.takeWhile jsWs).all jsWs = true := by
    rw [List.all_eq_true]
    intro x hx
    exact List.mem_takeWhile_imp hx
  have hsemi : ';' ∉ l.takeWhile jsWs := by
    intro hm
    have h1 : jsWs ';' = true := List.mem_takeWhile_imp hm
    exact absurd h1 (by decide)
  conv_rhs => rw [hdec]
  cases hx : jsSplitC ';' (trimL l) with
  | nil => exact absurd hx (jsSplitC_ne_nil _ _)
  | cons h r =>
    rw [split_prepend_sepFree ';' _ _ h r hx hsemi]
    simp only [List.map_cons]
    rw [trimB_append_allWs_left _ _ hall]

theorem mapTrimB_modLast_allWs (w : List Char) (hw : w.all jsWs = true)
    (ps : List (List Char)) :
    (modLast (· ++ w) ps).map trimB = ps.map trimB := by
  induction ps with
  | nil => rfl
  | cons p r ih =>
    cases r with
    | nil =>
      show [trimB (p ++ w)] = [trimB p]
      rw [trimB_append_allWs_right _ _ hw]
    | cons q r2 =>
      show trimB p :: (modLast (· ++ w) (q :: r2)).map trimB
        = trimB p :: (q :: r2).map trimB
      rw [ih]

theorem mapTrimB_split_trimR (l : List Char) :
    (jsSplitC ';' (trimR l)).map trimB = (jsSplitC ';' l).map trimB := by
  obtain ⟨w, hw, hall⟩ := trimR_decomp l
  have hsemi : ';' ∉ w := by
    intro hm
    rw [List.all_eq_true] at hall
    exact absurd (hall _ hm) (by decide)
  conv_rhs => rw [hw]
  rw [split_append_sepFree_tail ';' _ w hsemi, mapTrimB_modLast_allWs w hall]

theorem mapTrimB_split_trimB (l : List Char) :
    (jsSplitC ';' (trimB l)).map trimB = (jsSplitC ';' l).map trimB := by
  show (jsSplitC ';' (trimR (trimL l))).map trimB = _
  rw [mapTrimB_split_trimR, mapTrimB_split_trimL]

theorem styleClean_mk_trimB (l : List Char) :
    styleClean (String.mk (trimB l)) = styleClean (String.mk l) := by
  show (jsSplitC ';' (trimB l)).all (fun d => !(isBackgroundDecl (trimB d)))
    = (jsSplitC ';' l).all (fun d => !(isBackgroundDecl (trimB d)))
  have h1 : ∀ (m : List (List Char)),
      m.all (fun d => !(isBackgroundDecl (trimB d)))
        = (m.map trimB).all (fun d => !(isBackgroundDecl d)) := by
    intro m
    rw [List.all_map]
    rfl
  rw [h1, h1, mapTrimB_split_trimB]

theorem split_join2_cons (p : List Char) (r : List (List Char))
    (hp : ∀ z ∈ p :: r, ';' ∉ z) :
    jsSplitC ';' (joinSep [';', ' '] (p :: r))
      = p :: r.map (fun q => ' ' :: q) := by
  induction r generalizing p with
  | nil =>
    show jsSplitC ';' p = [p]
    exact split_sepFree ';' p (hp p (List.mem_cons_self p []))
  | cons q r2 ih =>
    have hj : joinSep [';', ' '] (p :: q :: r2)
        = p ++ ';' :: ' ' :: joinSep [';', ' '] (q :: r2) := by
      show p ++ [';', ' '] ++ joinSep [';', ' '] (q :: r2) = _
      rw [List.append_assoc]
      rfl
    rw [hj, split_append_sep,
      split_sepFree ';' p (hp p (List.mem_cons_self p _)),
      jsSplitC_cons_eq, if_neg (by decide),
      ih q (fun z hz => hp z (List.mem_cons_of_mem p hz))]
    rfl

theorem styleClean_join2 (ps : List (List Char))
    (hp : ∀ p ∈ ps, ';' ∉ p ∧ isBackgroundDecl (trimB p) = false) :
    styleClean (String.mk (joinSep [';', ' '] ps)) = true := by
  show (jsSplitC ';' (joinSep [';', ' '] ps)).all
    (fun d => !(isBackgroundDecl (trimB d))) = true
  cases ps with
  | nil => decide
  | cons p r =>
    rw [split_join2_cons p r (fun z hz => (hp z hz).1)]
    rw [List.all_eq_true]
    intro d hd
    cases hd with
    | head =>
      rw [Bool.not_eq_true']
      exact (hp p (List.mem_cons_self p r)).2
    | tail _ hm =>
      obtain ⟨q, hqr, hqd⟩ := List.mem_map.mp hm
      rw [← hqd]
      have hq : trimB (' ' :: q) = trimB q :=
        trimB_append_allWs_left [' '] q (by decide)
      rw [hq, Bool.not_eq_true']
      exact (hp q (List.mem_cons_of_mem p hqr)).2

-- ── style cleanliness of the style-processing helpers ──────────────

theorem trimR_sublist (l : List Char) : List.Sublist (trimR l) l := by
  induction l with
  | nil => exact List.Sublist.refl []
  | cons c t ih =>
    rw [trimR_cons_eq]
    cases hr : trimR t with
    | nil =>
      by_cases hc : jsWs c = true
      · rw [if_pos hc]
        exact List.nil_sublist _
      · rw [if_neg hc]
        exact List.cons_sublist_cons.mpr (List.nil_sublist t)
    | cons y r =>
      rw [hr] at ih
      exact List.cons_sublist_cons.mpr ih

theorem trimB_sublist (l : List Char) : List.Sublist (trimB l) l :=
  (trimR_sublist (trimL l)).trans
    (List.dropWhile_sublist jsWs : List.Sublist (trimL l) l)

theorem styleClean_data (s : String) (d : List Char) (hs : styleClean s = true)
    (hd : d ∈ jsSplitC ';' s.data) : isBackgroundDecl (trimB d) = false := by
  unfold styleClean at hs
  rw [List.all_eq_true] at hs
  have h1 := hs d hd
  rwa [Bool.not_eq_true'] at h1

theorem styleClean_cleanedStyleOf (s : String) :
    styleClean (cleanedStyleOf s) = true := by
  unfold cleanedStyleOf
  apply styleClean_join2
  intro p hp
  rw [List.mem_filter] at hp
  obtain ⟨hp1, hp2⟩ := hp
  rw [List.mem_map] at hp1
  obtain ⟨d, hd, hdp⟩ := hp1
  rw [Bool.and_eq_true] at hp2
  constructor
  · rw [← hdp]
    intro hm
    exact mem_split_sepFree ';' s.data d hd ((trimB_sublist d).subset hm)
  · rw [← hdp, trimB_idem]
    have h2 := hp2.2
    rw [← hdp] at h2
    rwa [Bool.not_eq_true'] at h2

theorem styleClean_removeWidth (x y : String)
    (hx : styleClean x = true) (hy : styleClean y = true) :
    styleClean (removeWidth [x, y]) = true := by
  have hcomb : ∀ d ∈ jsSplitC ';'
      (joinSep [';'] (([x, y].filter (fun s => !(trimB s.data).isEmpty)).map
        (fun s => s.data))),
      isBackgroundDecl (trimB d) = false := by
    by_cases hbx : (!(trimB x.data).isEmpty) = true
    · by_cases hby : (!(trimB y.data).isEmpty) = true
      · rw [show ([x, y].filter (fun s => !(trimB s.data).isEmpty)) = [x, y] from by
          simp [List.filter, hbx, hby]]
        intro d hd
        rw [show joinSep [';'] ([x, y].map (fun s => s.data))
            = x.data ++ ';' :: y.data from by
          show x.data ++ [';'] ++ y.data = x.data ++ ';' :: y.data
          rw [List.append_assoc]
          rfl] at hd
        rw [split_append_sep] at hd
        rcases List.mem_append.mp hd with hmem | hmem
        · exact styleClean_data x d hx hmem
        · exact styleClean_data y d hy hmem
      · rw [show ([x, y].filter (fun s => !(trimB s.data).isEmpty)) = [x] from by
          simp [List.filter, hbx, hby]]
        intro d hd
        exact styleClean_data x d hx hd
    · by_cases hby : (!(trimB y.data).isEmpty) = true
      · rw [show ([x, y].filter (fun s => !(trimB s.data).isEmpty)) = [y] from by
          simp [List.filter, hbx, hby]]
        intro d hd
        exact styleClean_data y d hy hd
      · rw [show ([x, y].filter (fun s => !(trimB s.data).isEmpty)) = [] from by
          simp [List.filter, hbx, hby]]
        intro d hd
        have hde : d = [] := by simpa [jsSplitC] using hd
        rw [hde]
        decide
  unfold removeWidth
  rw [styleClean_mk_trimB]
  apply styleClean_join2
  intro p hp
  rw [List.mem_filter] at hp
  obtain ⟨hp1, _⟩ := hp
  rw [List.mem_map] at hp1
  obtain ⟨d, hd, hdp⟩ := hp1
  refine ⟨?_, ?_⟩
  · rw [← hdp]
    intro hm
    exact mem_split_sepFree ';' _ d hd ((trimB_sublist d).subset hm)
  · rw [← hdp, trimB_idem]
    exact hcomb d hd

-- ── attribute map lemmas ───────────────────────────────────────────

theorem beq_symm_false {k k' : String} (hk : (k' == k) = false) :
    (k == k') = false := by
  rw [beq_eq_false_iff_ne] at hk ⊢
  exact fun he => hk he.symm

theorem find?_cons_eq (f : String × String → Bool) (p : String × String)
    (t : List (String × String)) :
    List.find? f (p :: t) = if f p then some p else List.find? f t := by
  by_cases h : f p = true
  · rw [List.find?_cons_of_pos _ h, if_pos h]
  · rw [List.find?_cons_of_neg _ (by simpa using h), if_neg h]

theorem filter_cons_eq (f : String × String → Bool) (p : String × String)
    (t : List (String × String)) :
    List.filter f (p :: t)
      = if f p then p :: t.filter f else t.filter f := by
  by_cases h : f p = true
  · rw [List.filter_cons_of_pos h, if_pos h]
  · rw [List.filter_cons_of_neg (by simpa using h), if_neg h]

theorem getAttr_cons (p : String × String) (t : List (String × String))
    (k : String) :
    getAttr (p :: t) k = if p.1 == k then some p.2 else getAttr t k := by
  unfold getAttr
  rw [find?_cons_eq (fun q => q.1 == k) p t]
  by_cases h : (p.1 == k) = true
  · rw [if_pos h, if_pos h]
    rfl
  · rw [if_neg h, if_neg h]

theorem getAttr_setAttr_same (a : List (String × String)) (k v : String) :
    getAttr (setAttr a k v) k = some v := by
  unfold setAttr
  by_cases h : a.any (fun p => p.1 == k) = true
  · rw [if_pos h]
    induction a with
    | nil => simp at h
    | cons p t ih =>
      simp only [List.map_cons]
      by_cases hp : (p.1 == k) = true
      · rw [if_pos hp]
        simp only [getAttr_cons]
        simp
      · rw [if_neg hp]
        simp only [getAttr_cons]
        rw [if_neg hp]
        rw [List.any_cons, Bool.or_eq_true] at h
        rcases h with h | h
        · exact absurd h hp
        · exact ih h
  · rw [if_neg h]
    rw [Bool.not_eq_true] at h
    induction a with
    | nil =>
      rw [List.nil_append]
      simp only [getAttr_cons]
      simp
    | cons p t ih =>
      rw [List.any_cons, Bool.or_eq_false_iff] at h
      rw [List.cons_append]
      simp only [getAttr_cons]
      rw [if_neg (by simp [h.1])]
      exact ih h.2

theorem getAttr_setAttr_ne (a : List (String × String)) (k v k' : String)
    (hk : (k' == k) = false) :
    getAttr (setAttr a k v) k' = getAttr a k' := by
  unfold setAttr
  by_cases h : a.any (fun p => p.1 == k) = true
  · rw [if_pos h]
    clear h
    induction a with
    | nil => rfl
    | cons p t ih =>
      simp only [List.map_cons]
      by_cases hp : (p.1 == k) = true
      · have hpk : p.1 = k := by simpa using hp
        rw [if_pos hp]
        simp only [getAttr_cons]
        rw [show ((k, v).1 == k') = false from beq_symm_false hk,
          show (p.1 == k') = false from by rw [hpk]; exact beq_symm_false hk]
        simp only [Bool.false_eq_true, if_false]
        exact ih
      · rw [if_neg hp]
        simp only [getAttr_cons]
        by_cases hq : (p.1 == k') = true
        · simp only [if_pos hq]
        · simp only [if_neg hq]
          exact ih
  · rw [if_neg h]
    unfold getAttr
    rw [List.find?_append]
    have h1 : List.find? (fun p => p.1 == k') [(k, v)] = none := by
      simp [List.find?, beq_symm_false hk]
    rw [h1]
    simp

theorem getAttr_removeAttr_same (a : List (String × String)) (k : String) :
    getAttr (removeAttr a k) k = none := by
  unfold removeAttr getAttr
  have h1 : List.find? (fun p => p.1 == k)
      (a.filter (fun p => p.1 != k)) = none := by
    rw [List.find?_eq_none]
    intro x hx
    rw [List.mem_filter] at hx
    have h2 := hx.2
    intro hxk
    rw [show (x.1 != k) = !(x.1 == k) from rfl, hxk] at h2
    simp at h2
  rw [h1]
  rfl

theorem getAttr_removeAttr_ne (a : List (String × String)) (k k' : String)
    (hk : (k' == k) = false) :
    getAttr (removeAttr a k) k' = getAttr a k' := by
  unfold removeAttr
  induction a with
  | nil => rfl
  | cons p t ih =>
    rw [filter_cons_eq (fun q => q.1 != k) p t]
    by_cases hpk : (p.1 != k) = true
    · rw [if_pos hpk]
      simp only [getAttr_cons]
      by_cases hq : (p.1 == k') = true
      · simp only [if_pos hq]
      · simp only [if_neg hq]
        exact ih
    · rw [if_neg hpk]
      have hpk2 : p.1 = k := by
        rw [show (p.1 != k) = !(p.1 == k) from rfl] at hpk
        simp only [Bool.not_eq_true, Bool.not_eq_false] at hpk
        simpa using hpk
      simp only [getAttr_cons]
      rw [show (p.1 == k') = false from by rw [hpk2]; exact beq_symm_false hk]
      simp only [Bool.false_eq_true, if_false]
      exact ih

-- ── extraction establishes the invariant ───────────────────────────

theorem extractHrefStage_href (tag : String) (a : List (String × String))
    (ht : (tag == "image") = true) :
    getAttr (extractHrefStage tag a) "href" = none := by
  unfold extractHrefStage
  by_cases h : (lowerS tag == "image" && (getAttr a "href").isSome) = true
  · rw [if_pos h]
    exact getAttr_removeAttr_same _ _
  · rw [if_neg h]
    have ht2 : (lowerS tag == "image") = true := by
      have he : tag = "image" := by simpa using ht
      rw [he]
      decide
    cases hopt : getAttr a "href" with
    | none => rfl
    | some v =>
      exfalso
      rw [ht2, Bool.true_and] at h
      rw [hopt] at h
      simp at h

theorem extractHrefStage_ne (tag : String) (a : List (String × String))
    (k : String) (h1 : (k == "href") = false) (h2 : (k == "iftool-href") = false) :
    getAttr (extractHrefStage tag a) k = getAttr a k := by
  unfold extractHrefStage
  by_cases h : (lowerS tag == "image" && (getAttr a "href").isSome) = true
  · rw [if_pos h, getAttr_removeAttr_ne _ _ _ h1, getAttr_setAttr_ne _ _ _ _ h2]
  · rw [if_neg h]

theorem extractSrcStage_src (tag : String) (a : List (String × String))
    (ht : (tag == "img") = true) :
    getAttr (extractSrcStage tag a) "src" = none := by
  unfold extractSrcStage
  by_cases h : (lowerS tag == "img" && (getAttr a "src").isSome) = true
  · rw [if_pos h]
    exact getAttr_removeAttr_same _ _
  · rw [if_neg h]
    have ht2 : (lowerS tag == "img") = true := by
      have he : tag = "img" := by simpa using ht
      rw [he]
      decide
    cases hopt : getAttr a "src" with
    | none => rfl
    | some v =>
      exfalso
      rw [ht2, Bool.true_and] at h
      rw [hopt] at h
      simp at h

theorem extractSrcStage_ne (tag : String) (a : List (String × String))
    (k : String) (h1 : (k == "src") = false) (h2 : (k == "iftool-src") = false) :
    getAttr (extractSrcStage tag a) k = getAttr a k := by
  unfold extractSrcStage
  by_cases h : (lowerS tag == "img" && (getAttr a "src").isSome) = true
  · rw [if_pos h, getAttr_removeAttr_ne _ _ _ h1, getAttr_setAttr_ne _ _ _ _ h2]
  · rw [if_neg h]

theorem extractStyleStage_style (cssBg : String → BgProps)
    (a : List (String × String)) :
    styleClean ((getAttr (extractStyleStage cssBg a) "style").getD "") = true := by
  simp only [extractStyleStage]
  by_cases houter : (getAttr a "style").isSome = true
  · rw [if_pos houter]
    by_cases hcl : (cleanedStyleOf ((getAttr a "style").getD "") != "") = true
    · rw [if_pos hcl, getAttr_setAttr_same]
      exact styleClean_cleanedStyleOf _
    · rw [if_neg hcl, getAttr_removeAttr_same]
      decide
  · rw [if_neg houter]
    cases hopt : getAttr a "style" with
    | none => decide
    | some v =>
      exfalso
      rw [hopt] at houter
      simp at houter

theorem extractStyleStage_ne (cssBg : String → BgProps)
    (a : List (String × String)) (k : String)
    (n0 : (k == "style") = false)
    (n1 : (k == "iftool-background") = false)
    (n2 : (k == "iftool-bg-color") = false)
    (n3 : (k == "iftool-bg-position") = false)
    (n4 : (k == "iftool-bg-size") = false)
    (n5 : (k == "iftool-bg-repeat") = false)
    (n6 : (k == "iftool-bg-attachment") = false)
    (n7 : (k == "iftool-bg-origin") = false)
    (n8 : (k == "iftool-bg-clip") = false) :
    getAttr (extractStyleStage cssBg a) k = getAttr a k := by
  simp only [extractStyleStage]
  by_cases houter : (getAttr a "style").isSome = true
  · rw [if_pos houter]
    by_cases hurl : ((cssBg ((getAttr a "style").getD "")).url != "") = true
    · rw [if_pos hurl]
      by_cases hcl : (cleanedStyleOf ((getAttr a "style").getD "") != "") = true
      · rw [if_pos hcl, getAttr_setAttr_ne _ _ _ _ n0,
          getAttr_setAttr_ne _ _ _ _ n8, getAttr_setAttr_ne _ _ _ _ n7,
          getAttr_setAttr_ne _ _ _ _ n6, getAttr_setAttr_ne _ _ _ _ n5,
          getAttr_setAttr_ne _ _ _ _ n4, getAttr_setAttr_ne _ _ _ _ n3,
          getAttr_setAttr_ne _ _ _ _ n2, getAttr_setAttr_ne _ _ _ _ n1]
      · rw [if_neg hcl, getAttr_removeAttr_ne _ _ _ n0,
          getAttr_setAttr_ne _ _ _ _ n8, getAttr_setAttr_ne _ _ _ _ n7,
          getAttr_setAttr_ne _ _ _ _ n6, getAttr_setAttr_ne _ _ _ _ n5,
          getAttr_setAttr_ne _ _ _ _ n4, getAttr_setAttr_ne _ _ _ _ n3,
          getAttr_setAttr_ne _ _ _ _ n2, getAttr_setAttr_ne _ _ _ _ n1]
    · rw [if_neg hurl]
      by_cases hcl : (cleanedStyleOf ((getAttr a "style").getD "") != "") = true
      · rw [if_pos hcl, getAttr_setAttr_ne _ _ _ _ n0]
      · rw [if_neg hcl, getAttr_removeAttr_ne _ _ _ n0]
  · rw [if_neg houter]

theorem nodeInv_extract (cssBg : String → BgProps) (t : String)
    (a : List (String × String)) (cs : NodeList) :
    nodeInv (Node.element t (extractLocalAttrs cssBg t a) cs) = true := by
  unfold nodeInv hsNodeInv
  rw [Bool.and_eq_true, Bool.and_eq_true]
  refine ⟨⟨?_, ?_⟩, ?_⟩
  · by_cases h : ((Node.element t (extractLocalAttrs cssBg t a) cs).tag == "image") = true
    · rw [h]
      have hnone : (Node.element t (extractLocalAttrs cssBg t a) cs).attr "href" = none := by
        show getAttr (extractLocalAttrs cssBg t a) "href" = none
        unfold extractLocalAttrs
        rw [extractStyleStage_ne cssBg _ "href" (by decide) (by decide) (by decide)
            (by decide) (by decide) (by decide) (by decide) (by decide) (by decide),
          extractSrcStage_ne t _ "href" (by decide) (by decide)]
        exact extractHrefStage_href t a h
      rw [hnone]
      rfl
    · have hf : ((Node.element t (extractLocalAttrs cssBg t a) cs).tag == "image") = false := by
        simpa using h
      rw [hf]
      rfl
  · by_cases h : ((Node.element t (extractLocalAttrs cssBg t a) cs).tag == "img") = true
    · rw [h]
      have hnone : (Node.element t (extractLocalAttrs cssBg t a) cs).attr "src" = none := by
        show getAttr (extractLocalAttrs cssBg t a) "src" = none
        unfold extractLocalAttrs
        rw [extractStyleStage_ne cssBg _ "src" (by decide) (by decide) (by decide)
            (by decide) (by decide) (by decide) (by decide) (by decide) (by decide)]
        exact extractSrcStage_src t _ h
      rw [hnone]
      rfl
    · have hf : ((Node.element t (extractLocalAttrs cssBg t a) cs).tag == "img") = false := by
        simpa using h
      rw [hf]
      rfl
  · show styleClean ((getAttr (extractLocalAttrs cssBg t a) "style").getD "") = true
    unfold extractLocalAttrs
    exact extractStyleStage_style _ _

mutual
theorem extractAll_inv (cssBg : String → BgProps) :
    ∀ n, treeAll nodeInv (extractAll cssBg n) = true
  | .element t a cs => by
    show (nodeInv (Node.element t (extractLocalAttrs cssBg t a) (extractList cssBg cs))
        && listAll nodeInv (extractList cssBg cs)) = true
    rw [Bool.and_eq_true]
    exact ⟨nodeInv_extract cssBg t a _, extractList_inv cssBg cs⟩
  | .textLeaf s => rfl
  | .commentLeaf s => rfl
theorem extractList_inv (cssBg : String → BgProps) :
    ∀ l, listAll nodeInv (extractList cssBg l) = true
  | .nil => rfl
  | .cons c rest => by
    show (treeAll nodeInv (extractAll cssBg c)
        && listAll nodeInv (extractList cssBg rest)) = true
    rw [Bool.and_eq_true]
    exact ⟨extractAll_inv cssBg c, extractList_inv cssBg rest⟩
end

-- ── generic invariant preservation over the traversal ──────────────

theorem treeAll_elem (p : Node → Bool) (t : String) (a : List (String × String))
    (cs : NodeList) :
    treeAll p (.element t a cs) = (p (.element t a cs) && listAll p cs) := rfl

theorem listAll_cons_eq (p : Node → Bool) (c : Node) (rest : NodeList) :
    listAll p (.cons c rest) = (treeAll p c && listAll p rest) := rfl

theorem treeAll_head (p : Node → Bool) (n : Node) (h : treeAll p n = true) :
    p n = true := by
  cases n with
  | element t a cs =>
    rw [treeAll_elem, Bool.and_eq_true] at h
    exact h.1
  | textLeaf s => exact h
  | commentLeaf s => exact h

theorem treeAll_children (p : Node → Bool) (n : Node) (h : treeAll p n = true) :
    listAll p n.childrenL = true := by
  cases n with
  | element t a cs =>
    rw [treeAll_elem, Bool.and_eq_true] at h
    exact h.2
  | textLeaf s => rfl
  | commentLeaf s => rfl

theorem nodeInv_style (n : Node) (h : nodeInv n = true) :
    styleClean n.styleOr = true := by
  rw [show nodeInv n = (hsNodeInv n && styleClean n.styleOr) from rfl,
    Bool.and_eq_true] at h
  exact h.2

theorem listAll_findFirst (p : Node → Bool) (q : Node → Bool) :
    ∀ (l : NodeList), listAll p l = true →
      ∀ s, NodeList.findFirst q l = some s → treeAll p s = true
  | .nil => fun _ s hf => absurd hf (by simp [NodeList.findFirst])
  | .cons c rest => fun h s hf => by
    rw [listAll_cons_eq, Bool.and_eq_true] at h
    rw [show NodeList.findFirst q (.cons c rest)
        = if q c then some c else NodeList.findFirst q rest from rfl] at hf
    by_cases hq : q c = true
    · rw [if_pos hq] at hf
      cases hf
      exact h.1
    · rw [if_neg hq] at hf
      exact listAll_findFirst p q rest h.2 s hf

theorem nodeInv_build (t : String) (A : List (String × String)) (cs : NodeList)
    (h1 : (t == "image") = true → getAttr A "href" = none)
    (h2 : (t == "img") = true → getAttr A "src" = none)
    (h3 : styleClean ((getAttr A "style").getD "") = true) :
    nodeInv (Node.element t A cs) = true := by
  unfold nodeInv hsNodeInv
  rw [Bool.and_eq_true, Bool.and_eq_true]
  refine ⟨⟨?_, ?_⟩, h3⟩
  · show (!(t == "image") || (getAttr A "href").isNone) = true
    by_cases ht : (t == "image") = true
    · rw [ht, h1 ht]
      rfl
    · have hf : (t == "image") = false := by simpa using ht
      rw [hf]
      rfl
  · show (!(t == "img") || (getAttr A "src").isNone) = true
    by_cases ht : (t == "img") = true
    · rw [ht, h2 ht]
      rfl
    · have hf : (t == "img") = false := by simpa using ht
      rw [hf]
      rfl

theorem hsNodeInv_build (t : String) (A : List (String × String)) (cs : NodeList)
    (h1 : (t == "image") = true → getAttr A "href" = none)
    (h2 : (t == "img") = true → getAttr A "src" = none) :
    hsNodeInv (Node.element t A cs) = true := by
  unfold hsNodeInv
  rw [Bool.and_eq_true]
  constructor
  · show (!(t == "image") || (getAttr A "href").isNone) = true
    by_cases ht : (t == "image") = true
    · rw [ht, h1 ht]
      rfl
    · have hf : (t == "image") = false := by simpa using ht
      rw [hf]
      rfl
  · show (!(t == "img") || (getAttr A "src").isNone) = true
    by_cases ht : (t == "img") = true
    · rw [ht, h2 ht]
      rfl
    · have hf : (t == "img") = false := by simpa using ht
      rw [hf]
      rfl

set_option linter.unusedSectionVars false

section InvPres

variable (m : String → Node → Bool) (w : Node → Node) (p : Node → Bool)
variable (hpI : ∀ t a cs cs', p (.element t a cs) = p (.element t a cs'))
variable (hW : ∀ pt n, m pt n = true → treeAll p n = true → treeAll p (w n) = true)

include hpI hW

mutual
theorem treeAll_rwGo : ∀ n, treeAll p n = true → treeAll p (rwGo m w n) = true
  | .element t a cs => fun h => by
    rw [treeAll_elem, Bool.and_eq_true] at h
    show (p (Node.element t a (rwChildren m w t cs))
        && listAll p (rwChildren m w t cs)) = true
    rw [Bool.and_eq_true]
    refine ⟨?_, listAll_rwChildren t cs h.2⟩
    rw [hpI t a (rwChildren m w t cs) cs]
    exact h.1
  | .textLeaf s => fun h => h
  | .commentLeaf s => fun h => h
theorem listAll_rwChildren : ∀ (pt : String) (l : NodeList),
    listAll p l = true → listAll p (rwChildren m w pt l) = true
  | pt, .nil => fun h => h
  | pt, .cons c rest => fun h => by
    rw [listAll_cons_eq, Bool.and_eq_true] at h
    show (treeAll p (if m pt c then w c else rwGo m w c)
        && listAll p (rwChildren m w pt rest)) = true
    rw [Bool.and_eq_true]
    refine ⟨?_, listAll_rwChildren pt rest h.2⟩
    by_cases hm2 : m pt c = true
    · rw [if_pos hm2]
      exact hW pt c hm2 h.1
    · rw [if_neg hm2]
      exact treeAll_rwGo c h.1
end

end InvPres

-- ── per-rule invariant preservation ────────────────────────────────

theorem wSvg2img_pres (pt : String) (n : Node) (_ : mSvg2img pt n = true)
    (h : treeAll nodeInv n = true) : treeAll nodeInv (wSvg2img n) = true := by
  have hstyle := nodeInv_style n (treeAll_head nodeInv n h)
  unfold wSvg2img
  rw [treeAll_elem, Bool.and_eq_true]
  refine ⟨?_, rfl⟩
  apply nodeInv_build
  · intro ht
    exact absurd ht (by decide)
  · intro _
    rw [getAttr_filterPreserved_append _ _ "src" (by decide) (by decide)]
    rfl
  · rw [getAttr_filterPreserved_append _ _ "style" (by decide) (by decide)]
    exact hstyle

theorem wImage2img_pres (pt : String) (n : Node) (_ : mImage2any pt n = true)
    (h : treeAll nodeInv n = true) : treeAll nodeInv (wImage2img n) = true := by
  have hstyle := nodeInv_style n (treeAll_head nodeInv n h)
  unfold wImage2img
  rw [treeAll_elem, Bool.and_eq_true]
  refine ⟨?_, ?_⟩
  · apply nodeInv_build
    · intro ht
      exact absurd ht (by decide)
    · intro ht
      exact absurd ht (by decide)
    · rfl
  · rw [listAll_cons_eq, Bool.and_eq_true]
    refine ⟨?_, rfl⟩
    rw [treeAll_elem, Bool.and_eq_true]
    refine ⟨?_, ?_⟩
    · apply nodeInv_build
      · intro ht
        exact absurd ht (by decide)
      · intro ht
        exact absurd ht (by decide)
      · rfl
    · rw [listAll_cons_eq, Bool.and_eq_true]
      refine ⟨?_, rfl⟩
      rw [treeAll_elem, Bool.and_eq_true]
      refine ⟨?_, rfl⟩
      apply nodeInv_build
      · intro ht
        exact absurd ht (by decide)
      · intro _
        rw [getAttr_filterPreserved_append _ _ "src" (by decide) (by decide)]
        rfl
      · rw [getAttr_filterPreserved_append _ _ "style" (by decide) (by decide)]
        exact hstyle

theorem wImage2svg_pres (pt : String) (n : Node) (_ : mImage2any pt n = true)
    (h : treeAll nodeInv n = true) : treeAll nodeInv (wImage2svg n) = true := by
  have hstyle := nodeInv_style n (treeAll_head nodeInv n h)
  unfold wImage2svg
  rw [treeAll_elem, Bool.and_eq_true]
  refine ⟨?_, ?_⟩
  · apply nodeInv_build
    · intro ht
      exact absurd ht (by decide)
    · intro ht
      exact absurd ht (by decide)
    · rfl
  · rw [listAll_cons_eq, Bool.and_eq_true]
    refine ⟨?_, rfl⟩
    rw [treeAll_elem, Bool.and_eq_true]
    refine ⟨?_, ?_⟩
    · apply nodeInv_build
      · intro ht
        exact absurd ht (by decide)
      · intro ht
        exact absurd ht (by decide)
      · rfl
    · rw [listAll_cons_eq, Bool.and_eq_true]
      refine ⟨?_, rfl⟩
      rw [treeAll_elem, Bool.and_eq_true]
      refine ⟨?_, rfl⟩
      apply nodeInv_build
      · intro ht
        exact absurd ht (by decide)
      · intro ht
        exact absurd ht (by decide)
      · rw [getAttr_filterPreserved_append _ _ "style" (by decide) (by decide)]
        exact hstyle

theorem wImg2image_pres (probe : String → Option ℚ) (pt : String) (n : Node)
    (_ : mImg2image pt n = true) (h : treeAll nodeInv n = true) :
    treeAll nodeInv (wImg2image probe n) = true := by
  have hstyle := nodeInv_style n (treeAll_head nodeInv n h)
  unfold wImg2image
  cases hpr : probe ((n.attr "iftool-src").getD "") with
  | some r =>
    rw [treeAll_elem, Bool.and_eq_true]
    refine ⟨?_, ?_⟩
    · apply nodeInv_build
      · intro ht
        exact absurd ht (by decide)
      · intro ht
        exact absurd ht (by decide)
      · rfl
    · rw [listAll_cons_eq, Bool.and_eq_true]
      refine ⟨?_, rfl⟩
      rw [treeAll_elem, Bool.and_eq_true]
      refine ⟨?_, rfl⟩
      apply nodeInv_build
      · intro _
        rw [getAttr_filterPreserved_append _ _ "href" (by decide) (by decide)]
        rfl
      · intro ht
        exact absurd ht (by decide)
      · rw [getAttr_filterPreserved_append _ _ "style" (by decide) (by decide)]
        exact hstyle
  | none =>
    unfold img2imageFallback
    rw [treeAll_elem, Bool.and_eq_true]
    refine ⟨?_, ?_⟩
    · apply nodeInv_build
      · intro ht
        exact absurd ht (by decide)
      · intro ht
        exact absurd ht (by decide)
      · rfl
    · rw [listAll_cons_eq, Bool.and_eq_true]
      refine ⟨?_, rfl⟩
      rw [treeAll_elem, Bool.and_eq_true]
      refine ⟨?_, rfl⟩
      apply nodeInv_build
      · intro _
        rw [getAttr_filterPreserved_append _ _ "href" (by decide) (by decide)]
        rfl
      · intro ht
        exact absurd ht (by decide)
      · rw [getAttr_filterPreserved_append _ _ "style" (by decide) (by decide)]
        rfl

theorem wImg2svg_pres (probe : String → Option ℚ) (pt : String) (n : Node)
    (_ : mImg2svg pt n = true) (h : treeAll nodeInv n = true) :
    treeAll nodeInv (wImg2svg probe n) = true := by
  have hstyle := nodeInv_style n (treeAll_head nodeInv n h)
  unfold wImg2svg
  cases hpr : probe ((n.attr "iftool-src").getD "") with
  | some r =>
    rw [treeAll_elem, Bool.and_eq_true]
    refine ⟨?_, rfl⟩
    apply nodeInv_build
    · intro ht
      exact absurd ht (by decide)
    · intro ht
      exact absurd ht (by decide)
    · rw [getAttr_filterPreserved_append _ _ "style" (by decide) (by decide)]
      exact hstyle
  | none =>
    unfold img2svgFallback
    rw [treeAll_elem, Bool.and_eq_true]
    refine ⟨?_, rfl⟩
    apply nodeInv_build
    · intro ht
      exact absurd ht (by decide)
    · intro ht
      exact absurd ht (by decide)
    · rw [getAttr_filterPreserved_append _ _ "style" (by decide) (by decide)]
      exact hstyle

theorem wFosvg2image_pres (pt : String) (n : Node) (_ : mFosvg2image pt n = true)
    (h : treeAll nodeInv n = true) : treeAll nodeInv (wFosvg2image n) = true := by
  have hstyle := nodeInv_style n (treeAll_head nodeInv n h)
  unfold wFosvg2image
  cases hfs : firstSvgChild n with
  | none => exact h
  | some s =>
    have hs : treeAll nodeInv s = true :=
      listAll_findFirst nodeInv (fun c => c.tag == "svg") n.childrenL
        (treeAll_children nodeInv n h) s hfs
    have hsstyle := nodeInv_style s (treeAll_head nodeInv s hs)
    rw [treeAll_elem, Bool.and_eq_true]
    refine ⟨?_, rfl⟩
    apply nodeInv_build
    · intro _
      rw [getAttr_filterPreserved_append _ _ "href" (by decide) (by decide)]
      rfl
    · intro ht
      exact absurd ht (by decide)
    · rw [getAttr_filterPreserved_append _ _ "style" (by decide) (by decide)]
      exact styleClean_removeWidth _ _ hstyle hsstyle

theorem wFoimg2image_pres (pt : String) (n : Node) (_ : mFoimg2image pt n = true)
    (h : treeAll nodeInv n = true) : treeAll nodeInv (wFoimg2image n) = true := by
  have hstyle := nodeInv_style n (treeAll_head nodeInv n h)
  unfold wFoimg2image
  cases hfs : firstImgChild n with
  | none => exact h
  | some i =>
    have hs : treeAll nodeInv i = true :=
      listAll_findFirst nodeInv (fun c => c.tag == "img") n.childrenL
        (treeAll_children nodeInv n h) i hfs
    have hsstyle := nodeInv_style i (treeAll_head nodeInv i hs)
    rw [treeAll_elem, Bool.and_eq_true]
    refine ⟨?_, rfl⟩
    apply nodeInv_build
    · intro _
      rw [getAttr_filterPreserved_append _ _ "href" (by decide) (by decide)]
      rfl
    · intro ht
      exact absurd ht (by decide)
    · rw [getAttr_filterPreserved_append _ _ "style" (by decide) (by decide)]
      exact styleClean_removeWidth _ _ hstyle hsstyle

theorem wSvg2image_hs (pt : String) (n : Node) (hm : mSvg2image pt n = true)
    (h : treeAll hsNodeInv n = true) :
    treeAll hsNodeInv (wSvg2image n) = true := by
  have htag : (n.tag == "svg") = true := by
    unfold mSvg2image at hm
    simp only [Bool.and_eq_true] at hm
    exact hm.1.1.1
  have he : n.tag = "svg" := by simpa using htag
  simp only [wSvg2image]
  rw [treeAll_elem, Bool.and_eq_true]
  refine ⟨?_, ?_⟩
  · apply hsNodeInv_build
    · intro hi
      rw [he] at hi
      exact absurd hi (by decide)
    · intro hi
      rw [he] at hi
      exact absurd hi (by decide)
  · rw [listAll_cons_eq, Bool.and_eq_true]
    refine ⟨?_, treeAll_children hsNodeInv n h⟩
    rw [treeAll_elem, Bool.and_eq_true]
    refine ⟨?_, rfl⟩
    apply hsNodeInv_build
    · intro _
      rfl
    · intro hi
      exact absurd hi (by decide)

-- ── compose re-materializes native attributes ──────────────────────

theorem composeFinal_href (a : List (String × String))
    (hh : truthy (getAttr a "iftool-href") = true) :
    getAttr (composeFinalAttrs a) "href"
      = some ((getAttr a "iftool-href").getD "") := by
  simp only [composeFinalAttrs]
  by_cases hsrc : truthy (getAttr a "iftool-src") = true
  · rw [if_pos hsrc,
      getAttr_setAttr_ne _ _ _ _ (by decide : (("href" : String) == "src") = false),
      if_pos hh, getAttr_setAttr_same]
  · rw [if_neg hsrc, if_pos hh, getAttr_setAttr_same]

theorem composeFinal_src (a : List (String × String))
    (hs : truthy (getAttr a "iftool-src") = true) :
    getAttr (composeFinalAttrs a) "src"
      = some ((getAttr a "iftool-src").getD "") := by
  simp only [composeFinalAttrs]
  rw [if_pos hs, getAttr_setAttr_same]

theorem isBg_marker (r : List Char) :
    isBackgroundDecl ("background".data ++ ':' :: r) = true := by
  simp only [isBackgroundDecl]
  rw [show ("background".data ++ ':' :: r).take 10 = "background".data from by
      rw [show (10 : Nat) = ("background".data).length from by decide]
      exact List.take_left _ _,
    show ("background".data ++ ':' :: r).drop 10 = ':' :: r from by
      rw [show (10 : Nat) = ("background".data).length from by decide]
      exact List.drop_left _ _]
  rw [show List.dropWhile jsWs (':' :: r) = ':' :: r from by
    rw [List.dropWhile_cons, show jsWs ':' = false from by decide]
    simp]
  rw [Bool.and_eq_true]
  refine ⟨by decide, ?_⟩
  rw [Bool.or_eq_true]
  right
  rfl

theorem trimR_cons_of (c : Char) (x : List Char) (hx : trimR x = x)
    (hc : jsWs c = false) : trimR (c :: x) = c :: x := by
  rw [trimR_cons_eq, hx]
  cases x with
  | nil => simp [hc]
  | cons y t => rfl

theorem trimR_append_of (pre r : List Char) (hr : trimR r = r) (hne : r ≠ []) :
    trimR (pre ++ r) = pre ++ r := by
  induction pre with
  | nil => exact hr
  | cons c t ih =>
    have hne2 : t ++ r ≠ [] := by
      intro hh
      exact hne (List.append_eq_nil.mp hh).2
    show trimR (c :: (t ++ r)) = c :: (t ++ r)
    rw [trimR_cons_eq, ih]
    cases hl : t ++ r with
    | nil => exact absurd hl hne2
    | cons y t2 => rfl

theorem isBg_trimB_marker (x : List Char) :
    isBackgroundDecl (trimB ("background".data ++ ':' :: x)) = true := by
  have h1 : trimL ("background".data ++ ':' :: x)
      = "background".data ++ ':' :: x :=
    trimL_cons_not ("ackground".data ++ ':' :: x) (by decide)
  show isBackgroundDecl (trimR (trimL ("background".data ++ ':' :: x))) = true
  rw [h1]
  obtain ⟨w, hw, hall⟩ := trimR_decomp x
  rw [show "background".data ++ ':' :: x
      = ("background".data ++ ':' :: trimR x) ++ w from by
    rw [List.append_assoc,
      show (':' :: trimR x) ++ w = ':' :: (trimR x ++ w) from rfl, ← hw]]
  rw [trimR_append_allWs _ w hall]
  cases htr : trimR x with
  | nil =>
    rw [show trimR ("background".data ++ ':' :: ([] : List Char))
        = "background".data ++ ':' :: ([] : List Char) from by decide]
    exact isBg_marker []
  | cons c2 t2 =>
    have hrr : trimR (c2 :: t2) = c2 :: t2 := by
      have h2 := trimR_idem x
      rw [htr] at h2
      exact h2
    rw [trimR_append_of ("background".data) (':' :: c2 :: t2)
      (trimR_cons_of ':' (c2 :: t2) hrr (by decide)) (by simp)]
    exact isBg_marker (c2 :: t2)

theorem styleClean_false_bg (r : List Char) :
    styleClean (String.mk ("background".data ++ ':' :: r)) = false := by
  unfold styleClean
  cases hx : jsSplitC ';' (':' :: r) with
  | nil => exact absurd hx (jsSplitC_ne_nil _ _)
  | cons h rest =>
    rw [show (String.mk ("background".data ++ ':' :: r)).data
        = "background".data ++ ':' :: r from rfl]
    rw [split_prepend_sepFree ';' ("background".data) (':' :: r) h rest hx
      (by decide)]
    rw [jsSplitC_cons_eq, if_neg (by decide)] at hx
    cases hr : jsSplitC ';' r with
    | nil => exact absurd hr (jsSplitC_ne_nil _ _)
    | cons h2 r2 =>
      rw [hr] at hx
      have hh : h = ':' :: h2 := (List.cons.injEq _ _ _ _).mp hx |>.1.symm
      rw [List.all_cons, hh]
      rw [show ("background".data ++ ':' :: h2) = "background".data ++ ':' :: h2 from rfl]
      rw [show (!(isBackgroundDecl (trimB ("background".data ++ ':' :: h2)))) = false from by
        rw [isBg_trimB_marker]
        rfl]
      rfl

theorem getAttr_filter_none (a : List (String × String))
    (f : String × String → Bool) (k : String) (h : getAttr a k = none) :
    getAttr (a.filter f) k = none := by
  unfold getAttr at h ⊢
  have h2 : List.find? (fun p => p.1 == k) a = none := by
    cases hf : List.find? (fun p => p.1 == k) a with
    | none => rfl
    | some p =>
      rw [hf] at h
      simp at h
  rw [List.find?_eq_none] at h2
  have h3 : List.find? (fun p => p.1 == k) (a.filter f) = none := by
    rw [List.find?_eq_none]
    intro x hx
    exact h2 x (List.mem_of_mem_filter hx)
  rw [h3]
  rfl

theorem strAppend_assoc (s t u : String) : (s ++ t) ++ u = s ++ (t ++ u) :=
  congrArg String.mk (List.append_assoc s.data t.data u.data)

theorem styleClean_bgPrefix (t : String) :
    styleClean ("background: " ++ t) = false :=
  styleClean_false_bg (' ' :: t.data)

theorem composeFinal_bg (a : List (String × String))
    (hbg : truthy (getAttr a "iftool-background") = true)
    (hst : getAttr a "style" = none) :
    (getAttr (composeFinalAttrs a) "style").isSome = true ∧
      styleClean ((getAttr (composeFinalAttrs a) "style").getD "") = false := by
  simp only [composeFinalAttrs]
  have hf0 : getAttr (a.filter (fun p => !(iftoolKeys.contains p.1))) "style"
      = none := getAttr_filter_none a _ "style" hst
  rw [if_pos hbg, hf0]
  rw [show (((none : Option String).getD "") != "") = false from by decide]
  simp only [Bool.false_eq_true, if_false]
  by_cases hsrc : truthy (getAttr a "iftool-src") = true
  · rw [if_pos hsrc,
      getAttr_setAttr_ne _ _ _ _ (by decide : (("style" : String) == "src") = false)]
    by_cases hhref : truthy (getAttr a "iftool-href") = true
    · rw [if_pos hhref,
        getAttr_setAttr_ne _ _ _ _
          (by decide : (("style" : String) == "href") = false),
        getAttr_setAttr_same]
      refine ⟨rfl, ?_⟩
      show styleClean ("background: " ++ _ ++ " url(" ++ _ ++ ") " ++ _ ++ " "
        ++ _ ++ " " ++ _ ++ " " ++ _ ++ " " ++ _) = false
      simp only [strAppend_assoc]
      exact styleClean_bgPrefix _
    · rw [if_neg hhref, getAttr_setAttr_same]
      refine ⟨rfl, ?_⟩
      show styleClean ("background: " ++ _ ++ " url(" ++ _ ++ ") " ++ _ ++ " "
        ++ _ ++ " " ++ _ ++ " " ++ _ ++ " " ++ _) = false
      simp only [strAppend_assoc]
      exact styleClean_bgPrefix _
  · rw [if_neg hsrc]
    by_cases hhref : truthy (getAttr a "iftool-href") = true
    · rw [if_pos hhref,
        getAttr_setAttr_ne _ _ _ _
          (by decide : (("style" : String) == "href") = false),
        getAttr_setAttr_same]
      refine ⟨rfl, ?_⟩
      show styleClean ("background: " ++ _ ++ " url(" ++ _ ++ ") " ++ _ ++ " "
        ++ _ ++ " " ++ _ ++ " " ++ _ ++ " " ++ _) = false
      simp only [strAppend_assoc]
      exact styleClean_bgPrefix _
    · rw [if_neg hhref, getAttr_setAttr_same]
      refine ⟨rfl, ?_⟩
      show styleClean ("background: " ++ _ ++ " url(" ++ _ ++ ") " ++ _ ++ " "
        ++ _ ++ " " ++ _ ++ " " ++ _ ++ " " ++ _) = false
      simp only [strAppend_assoc]
      exact styleClean_bgPrefix _

/-- C6: the neutral-namespace invariant, amended.  Extraction establishes
it on every node it processes; all seven rules other than `svg2image`
preserve the full invariant (no native `href` on image elements, no native
`src` on img elements, background-free styles); `svg2image` still
preserves the native-href/src half; and `composeFinalAttrs` is where the
native `href`, `src` and a background-bearing `style` are re-materialized
from the `iftool-*` slots. -/
theorem claim6_amended (cssBg : String → BgProps) (probe : String → Option ℚ)
    (t : Node) (cs : NodeList) (a : List (String × String))
    (ht : treeInv t = true) (hhs : hsInv t = true)
    (hh : truthy (getAttr a "iftool-href") = true)
    (hs2 : truthy (getAttr a "iftool-src") = true)
    (hbg : truthy (getAttr a "iftool-background") = true)
    (hst : getAttr a "style" = none) :
    listInv (extractList cssBg cs) = true ∧
      treeInv (fosvg2image t) = true ∧
      treeInv (svg2img t) = true ∧
      treeInv (image2img t) = true ∧
      treeInv (image2svg t) = true ∧
      treeInv (foimg2image t) = true ∧
      treeInv (img2image probe t) = true ∧
      treeInv (img2svg probe t) = true ∧
      hsInv (svg2image t) = true ∧
      getAttr (composeFinalAttrs a) "href"
        = some ((getAttr a "iftool-href").getD "") ∧
      getAttr (composeFinalAttrs a) "src"
        = some ((getAttr a "iftool-src").getD "") ∧
      (getAttr (composeFinalAttrs a) "style").isSome = true ∧
      styleClean ((getAttr (composeFinalAttrs a) "style").getD "") = false :=
  ⟨extractList_inv cssBg cs,
    treeAll_rwGo mFosvg2image wFosvg2image nodeInv (fun _ _ _ _ => rfl)
      wFosvg2image_pres t ht,
    treeAll_rwGo mSvg2img wSvg2img nodeInv (fun _ _ _ _ => rfl)
      wSvg2img_pres t ht,
    treeAll_rwGo mImage2any wImage2img nodeInv (fun _ _ _ _ => rfl)
      wImage2img_pres t ht,
    treeAll_rwGo mImage2any wImage2svg nodeInv (fun _ _ _ _ => rfl)
      wImage2svg_pres t ht,
    treeAll_rwGo mFoimg2image wFoimg2image nodeInv (fun _ _ _ _ => rfl)
      wFoimg2image_pres t ht,
    treeAll_rwGo mImg2image (wImg2image probe) nodeInv (fun _ _ _ _ => rfl)
      (wImg2image_pres probe) t ht,
    treeAll_rwGo mImg2svg (wImg2svg probe) nodeInv (fun _ _ _ _ => rfl)
      (wImg2svg_pres probe) t ht,
    treeAll_rwGo mSvg2image wSvg2image hsNodeInv (fun _ _ _ _ => rfl)
      wSvg2image_hs t hhs,
    composeFinal_href a hh,
    composeFinal_src a hs2,
    (composeFinal_bg a hbg hst).1,
    (composeFinal_bg a hbg hst).2⟩

/-- C6 witness: the amended theorem instantiated on `c6tree` and a
concrete attribute set carrying all three neutral slots. -/
theorem claim6_amended_witness :
    treeInv c6tree = true ∧ hsInv c6tree = true ∧
      truthy (getAttr [("iftool-href", "u"), ("iftool-src", "v"),
        ("iftool-background", "w")] "iftool-href") = true ∧
      getAttr [("iftool-href", "u"), ("iftool-src", "v"),
        ("iftool-background", "w")] "style" = none ∧
      treeInv (fosvg2image c6tree) = true ∧
      hsInv (svg2image c6tree) = true ∧
      getAttr (composeFinalAttrs [("iftool-href", "u"), ("iftool-src", "v"),
        ("iftool-background", "w")]) "href" = some "u" :=
  ⟨by decide, by decide, by decide, by decide,
    (claim6_amended (fun _ => ⟨"", "", "", "", "", "", "", ""⟩)
      (fun _ => none) c6tree NodeList.nil
      [("iftool-href", "u"), ("iftool-src", "v"), ("iftool-background", "w")]
      (by decide) (by decide) (by decide) (by decide) (by decide)
      (by decide)).2.1,
    (claim6_amended (fun _ => ⟨"", "", "", "", "", "", "", ""⟩)
      (fun _ => none) c6tree NodeList.nil
      [("iftool-href", "u"), ("iftool-src", "v"), ("iftool-background", "w")]
      (by decide) (by decide) (by decide) (by decide) (by decide)
      (by decide)).2.2.2.2.2.2.2.2.1,
    (claim6_amended (fun _ => ⟨"", "", "", "", "", "", "", ""⟩)
      (fun _ => none) c6tree NodeList.nil
      [("iftool-href", "u"), ("iftool-src", "v"), ("iftool-background", "w")]
      (by decide) (by decide) (by decide) (by decide) (by decide)
      (by decide)).2.2.2.2.2.2.2.2.2.1⟩

/-- C6 counterexample: `svg2image` breaks the invariant's style half.  The
background-free style `backtransform: x; ground-image: url(y)` satisfies
the invariant, but the rule's transform-stripping replace deletes
`transform: x; ` from the middle of the text and splices the remainder
into `background-image: url(y)`, so the freshly written image style
carries a background declaration again. -/
theorem claim6_counterexample :
    treeInv c6tree = true ∧ treeInv (svg2image c6tree) = false := by
  constructor
  · decide
  · decide

end SvgCC
